import Mathlib

/-!
Shallow embedding of the ESP32IMDB in-memory record store
(src/ESP32IMDB.h, src/ESP32IMDB.cpp) and verification of its
natural-language specification.

Modelling conventions:

* 32-bit machine words (`int32_t`, `uint32_t`, and the raw bit pattern of a
  `float`) are represented as `Nat` values below `2^32` (the bit pattern);
  `toInt32` reinterprets a pattern as a signed two's-complement value and
  `pat32` normalises an `Int` back into a pattern.
* Floating point arithmetic and comparisons are kept abstract: every
  operation that touches `float` values receives a `FloatOps` record of
  functions on 32-bit patterns.  No claim below depends on concrete IEEE
  behaviour.
* C strings handled by the store (query column names, string field inputs,
  stored string buffers) are modelled as lists of their non-NUL content
  bytes; a nullable `char*` becomes `Option (List Nat)`.  The fixed
  `char[32]` column-name array is modelled as the raw 32-byte list, and
  `strcmp` against it reads the bytes up to the first zero (`cstr`).
* Nullable pointer arguments of the public API become `Option` arguments.
* Heap allocation is assumed to succeed (`malloc` failure is environmental);
  the explicit free-heap guard `checkHeapLimit` is modelled faithfully via
  the `freeHeap` field of the environment.  The FreeRTOS mutex wrapping
  every call serialises operations and has no effect on their sequential
  semantics, so it is not modelled.
* The SPIFFS file becomes a byte list: `saveToFile` produces the bytes it
  would write and `loadFromFile` parses a byte list, with the same error
  codes at the same decision points as the source.
-/

namespace IMDB

/-- Signed reinterpretation of a 32-bit pattern (`(int32_t)x` in the source). -/
def toInt32 (n : Nat) : Int :=
  if n < 2147483648 then (n : Int) else (n : Int) - 4294967296

/-- Normalise an integer to its 32-bit pattern (two's-complement storage). -/
def pat32 (z : Int) : Nat :=
  (z % 4294967296).toNat

/-- Wrapping 32-bit subtraction `a - b` on patterns. -/
def sub32 (a b : Nat) : Nat :=
  (a + 4294967296 - b) % 4294967296

/-- Wrapping 32-bit addition on patterns. -/
def add32 (a b : Nat) : Nat :=
  (a + b) % 4294967296

/-- `IMDBDataType` (ESP32IMDB.h). -/
inductive DType
  | int32
  | mac
  | str
  | epoch
  | bool
  | float
deriving DecidableEq

/-- `IMDBFieldValue` (ESP32IMDB.h): the tagged view of the storage union.
A stored `char*` that may be null is `Option (List Nat)`. -/
inductive FieldValue
  | i32 (pat : Nat)
  | mac (bytes : List Nat)
  | str (s : Option (List Nat))
  | epoch (pat : Nat)
  | bool (b : Bool)
  | float (pat : Nat)
deriving DecidableEq

/-- Union field read through the `int32Value` member: the 4-byte scalar
variants share storage; reading a pointer variant is junk (modelled as 0). -/
def FieldValue.asI32 : FieldValue → Nat
  | .i32 p => p
  | .epoch p => p
  | .float p => p
  | _ => 0

/-- Union field read through the `epochValue` member. -/
def FieldValue.asEpoch : FieldValue → Nat
  | .i32 p => p
  | .epoch p => p
  | .float p => p
  | _ => 0

/-- Union field read through the `floatValue` member (raw pattern). -/
def FieldValue.asFloat : FieldValue → Nat
  | .i32 p => p
  | .epoch p => p
  | .float p => p
  | _ => 0

/-- Union field read through the `macAddress` member. -/
def FieldValue.asMac : FieldValue → List Nat
  | .mac bs => bs
  | _ => []

/-- Union field read through the `stringValue` member. -/
def FieldValue.asStr : FieldValue → Option (List Nat)
  | .str s => s
  | _ => none

/-- Union field read through the `boolValue` member. -/
def FieldValue.asBool : FieldValue → Bool
  | .bool b => b
  | _ => false

/-- `IMDBColumn` (ESP32IMDB.h): `name` is the raw `char[32]` array. -/
structure Column where
  name : List Nat
  type : DType
deriving DecidableEq

/-- `IMDBRecord` (ESP32IMDB.h). -/
structure Record where
  fields : List FieldValue
  expiryMillis : Nat
  isValid : Bool
deriving DecidableEq

/-- `fields[i]` (in-range by the store's alignment invariant). -/
def Record.fieldAt (r : Record) (i : Nat) : FieldValue :=
  r.fields.getD i (.i32 0)

/-- In-place overwrite of `fields[i]`. -/
def Record.setField (r : Record) (i : Nat) (f : FieldValue) : Record :=
  { r with fields := r.fields.set i f }

/-- The private state of an `ESP32IMDB` object: `_tableExists`, `_columns`
(with `_columnCount` = length) and `_records` (with `_recordCount` = length;
the unused capacity tail of the backing array is not observable). -/
structure Store where
  tableExists : Bool
  columns : List Column
  records : List Record
deriving DecidableEq

/-- `IMDBResult` (ESP32IMDB.h). -/
inductive IMDBResult
  | ok
  | outOfMemory
  | heapLimit
  | tableExists
  | noTable
  | invalidType
  | invalidValue
  | columnCountMismatch
  | columnNotFound
  | invalidOperation
  | noRecords
  | invalidMacFormat
  | fileOpen
  | fileWrite
  | fileRead
  | corruptFile
deriving DecidableEq

/-- `IMDBOperator` (ESP32IMDB.h). -/
inductive IMDBOperator
  | eq
  | ne
  | gt
  | lt
  | ge
  | le
deriving DecidableEq

/-- `IMDBMathOp` (ESP32IMDB.h). -/
inductive IMDBMathOp
  | add
  | sub
  | mul
  | div
  | mod
deriving DecidableEq

/-- Abstract 32-bit float operations (patterns in, patterns out).  The
claims verified here are independent of concrete IEEE-754 behaviour. -/
structure FloatOps where
  fadd : Nat → Nat → Nat
  fsub : Nat → Nat → Nat
  fmul : Nat → Nat → Nat
  fdiv : Nat → Nat → Nat
  fmod : Nat → Nat → Nat
  feq : Nat → Nat → Bool
  fne : Nat → Nat → Bool
  flt : Nat → Nat → Bool
  fle : Nat → Nat → Bool
  fgt : Nat → Nat → Bool
  fge : Nat → Nat → Bool
  ofInt : Int → Nat

/-- Ambient device state during one call: the monotonic clock `millis()`,
the free-heap query `ESP.getFreeHeap()` and the float unit. -/
structure Env where
  now : Nat
  freeHeap : Nat
  fops : FloatOps

/-- `checkHeapLimit` (ESP32IMDB.cpp line 67): free heap at least
`IMDB_MIN_HEAP_BYTES` = 30000. -/
def checkHeapLimit (env : Env) : Bool :=
  decide (env.freeHeap ≥ 30000)

/-- The C-string content of a fixed 32-byte name array: bytes up to NUL. -/
def cstr (bs : List Nat) : List Nat :=
  bs.takeWhile (fun b => b ≠ 0)

/-- Loop body of `findColumnIndex` (line 163), carrying the next index. -/
def findColumnIndexAux (name : List Nat) : List Column → Nat → Option Nat
  | [], _ => none
  | c :: rest, i =>
    if cstr c.name = name then some i else findColumnIndexAux name rest (i + 1)

/-- `findColumnIndex` (line 163): first column whose name `strcmp`-equals
the query, else none (source returns -1). -/
def findColumnIndex (cols : List Column) (name : List Nat) : Option Nat :=
  findColumnIndexAux name cols 0

/-- Type of column `i` (in-range by the schema invariant). -/
def typeAt (s : Store) (i : Nat) : DType :=
  (s.columns.getD i ⟨[], .int32⟩).type

/-- `isRecordExpired` (line 219): the zero expiry is the never-expires
sentinel; otherwise the wrapping difference `now - expiry` is reinterpreted
as signed and compared with 0. -/
def isRecordExpired (now expiryMillis : Nat) : Bool :=
  if expiryMillis = 0 then false
  else decide (0 ≤ toInt32 (sub32 now expiryMillis))

/-- The per-record guard `isValid && !isRecordExpired(...)` used by every
query scan. -/
def live (env : Env) (r : Record) : Bool :=
  r.isValid && !(isRecordExpired env.now r.expiryMillis)

/-- `compareValues` (line 378).  MAC, string and bool comparisons ignore the
operator (the source only ever computes equality for them); a null stored or
compared string yields false. -/
def compareValues (F : FloatOps) (field cmp : FieldValue) (t : DType)
    (op : IMDBOperator) : Bool :=
  match t with
  | .int32 =>
    let a := toInt32 field.asI32
    let b := toInt32 cmp.asI32
    match op with
    | .eq => decide (a = b)
    | .ne => decide (a ≠ b)
    | .gt => decide (a > b)
    | .lt => decide (a < b)
    | .ge => decide (a ≥ b)
    | .le => decide (a ≤ b)
  | .mac => decide (field.asMac = cmp.asMac)
  | .str =>
    match field.asStr, cmp.asStr with
    | some s, some c => decide (s = c)
    | _, _ => false
  | .epoch =>
    let a := field.asEpoch
    let b := cmp.asEpoch
    match op with
    | .eq => decide (a = b)
    | .ne => decide (a ≠ b)
    | .gt => decide (a > b)
    | .lt => decide (a < b)
    | .ge => decide (a ≥ b)
    | .le => decide (a ≤ b)
  | .bool => field.asBool == cmp.asBool
  | .float =>
    let a := field.asFloat
    let b := cmp.asFloat
    match op with
    | .eq => F.feq a b
    | .ne => F.fne a b
    | .gt => F.fgt a b
    | .lt => F.flt a b
    | .ge => F.fge a b
    | .le => F.fle a b

/-- `IMDBSelectResult` (ESP32IMDB.h), reduced to its observable content:
the written type tag and the one field the source fills. -/
structure SelectResult where
  type : DType
  val : FieldValue
deriving DecidableEq

/-- `getFieldValue` (line 654): copy one field into a result struct.  A null
stored string copies as the empty string; a stored string is truncated to
`IMDB_MAX_STRING_LENGTH` by the `strncpy` into the fixed result buffer. -/
def getFieldValue (f : FieldValue) (t : DType) : SelectResult :=
  match t with
  | .int32 => ⟨t, .i32 f.asI32⟩
  | .mac => ⟨t, .mac f.asMac⟩
  | .str => ⟨t, .str (some ((f.asStr.getD []).take 255))⟩
  | .epoch => ⟨t, .epoch f.asEpoch⟩
  | .bool => ⟨t, .bool f.asBool⟩
  | .float => ⟨t, .float f.asFloat⟩

/-- One result row: `getFieldValue` across all columns, positionally. -/
def rowOfAux : List Column → List FieldValue → List SelectResult
  | [], _ => []
  | c :: cs, fs => getFieldValue (fs.headD (.i32 0)) c.type :: rowOfAux cs fs.tail

/-- The full-row copy loops of `selectAll` (line 776) and `top` (line 1027). -/
def rowOf (cols : List Column) (r : Record) : List SelectResult :=
  rowOfAux cols r.fields

/-- `IMDB_MAX_TTL_MS` (ESP32IMDB.h): 30 days in milliseconds. -/
def maxTTL : Nat := 2592000000

/-- `copyFieldValue` (line 173).  The string case rejects a null source
`char*` and stores a fresh buffer holding at most `IMDB_MAX_STRING_LENGTH`
content bytes (source lists model the NUL-free content, so `strlen` is the
list length and the `strncpy` keeps the first 255 bytes). -/
def copyFieldValue (src : FieldValue) (t : DType) : Except IMDBResult FieldValue :=
  match t with
  | .int32 => .ok (.i32 src.asI32)
  | .mac => .ok (.mac src.asMac)
  | .str =>
    match src.asStr with
    | none => .error .invalidValue
    | some s => .ok (.str (some (s.take 255)))
  | .epoch => .ok (.epoch src.asEpoch)
  | .bool => .ok (.bool src.asBool)
  | .float => .ok (.float src.asFloat)

/-- The field-copy loop of `insert` (lines 336-361): each null `values[i]`
entry (including a too-short value array) aborts with `INVALID_VALUE`; a
failing `copyFieldValue` aborts with its error.  Both abort paths free every
field already copied and append nothing (the caller returns the original
store). -/
def copyFields : List Column → List (Option FieldValue) → Except IMDBResult (List FieldValue)
  | [], _ => .ok []
  | _ :: _, [] => .error .invalidValue
  | _ :: _, none :: _ => .error .invalidValue
  | c :: cs, some v :: vs =>
    match copyFieldValue v c.type with
    | .error e => .error e
    | .ok f =>
      match copyFields cs vs with
      | .error e => .error e
      | .ok rest => .ok (f :: rest)

/-- `insert` (line 291). -/
def insert (env : Env) (s : Store) (values : Option (List (Option FieldValue)))
    (ttlMillis : Nat) : IMDBResult × Store :=
  if s.tableExists = false then (.noTable, s)
  else
    match values with
    | none => (.invalidValue, s)
    | some vs =>
      if checkHeapLimit env = false then (.heapLimit, s)
      else if maxTTL < ttlMillis then (.invalidValue, s)
      else
        match copyFields s.columns vs with
        | .error e => (e, s)
        | .ok fs =>
          let expiry := if 0 < ttlMillis then add32 env.now ttlMillis else 0
          (.ok, { s with records := s.records ++ [⟨fs, expiry, true⟩] })

/-- The counting loop shared by `count` (line 799) and the match-counting
passes: number of valid, non-expired records. -/
def countLive (env : Env) : List Record → Nat
  | [] => 0
  | r :: rest => (if live env r then 1 else 0) + countLive env rest

/-- `count` (line 790): 0 when no table exists. -/
def count (env : Env) (s : Store) : Nat :=
  if s.tableExists = false then 0 else countLive env s.records

/-- The counting loop of `countWhere` (line 830). -/
def countWhereLoop (env : Env) (wIdx : Nat) (wVal : FieldValue) (wType : DType) :
    List Record → Nat
  | [] => 0
  | r :: rest =>
    (if live env r && compareValues env.fops (r.fieldAt wIdx) wVal wType .eq then 1 else 0)
      + countWhereLoop env wIdx wVal wType rest

/-- `countWhere` (line 810): 0 when no table exists, an argument is null,
or the column is unknown. -/
def countWhere (env : Env) (s : Store) (whereColumn : Option (List Nat))
    (whereValue : Option FieldValue) : Nat :=
  if s.tableExists = false then 0
  else
    match whereColumn, whereValue with
    | some wc, some wv =>
      match findColumnIndex s.columns wc with
      | none => 0
      | some wIdx => countWhereLoop env wIdx wv (typeAt s wIdx) s.records
    | _, _ => 0

/-- The scan loop of `select` (line 711): first live match, if any. -/
def selectLoop (env : Env) (wIdx cIdx : Nat) (wVal : FieldValue)
    (wType cType : DType) : List Record → Option SelectResult
  | [] => none
  | r :: rest =>
    if live env r && compareValues env.fops (r.fieldAt wIdx) wVal wType .eq then
      some (getFieldValue (r.fieldAt cIdx) cType)
    else selectLoop env wIdx cIdx wVal wType cType rest

/-- `select` (line 687). -/
def select (env : Env) (s : Store) (column whereColumn : Option (List Nat))
    (whereValue : Option FieldValue) : IMDBResult × Option SelectResult :=
  if s.tableExists = false then (.noTable, none)
  else
    match column, whereColumn, whereValue with
    | some c, some wc, some wv =>
      match findColumnIndex s.columns c, findColumnIndex s.columns wc with
      | some cIdx, some wIdx =>
        match selectLoop env wIdx cIdx wv (typeAt s wIdx) (typeAt s cIdx) s.records with
        | some res => (.ok, some res)
        | none => (.noRecords, none)
      | _, _ => (.columnNotFound, none)
    | _, _, _ => (.invalidValue, none)

/-- The row-collecting pass of `selectAll` (lines 772-782); the separate
match-counting pass (lines 749-755) computes the length of this list with
the identical predicate. -/
def selectRows (env : Env) (cols : List Column) (wIdx : Nat) (wVal : FieldValue)
    (wType : DType) : List Record → List (List SelectResult)
  | [] => []
  | r :: rest =>
    if live env r && compareValues env.fops (r.fieldAt wIdx) wVal wType .eq then
      rowOf cols r :: selectRows env cols wIdx wVal wType rest
    else selectRows env cols wIdx wVal wType rest

/-- `selectAll` (line 728).  `none` rows means `*results` was left null. -/
def selectAll (env : Env) (s : Store) (whereColumn : Option (List Nat))
    (whereValue : Option FieldValue) : IMDBResult × Option (List (List SelectResult)) :=
  if s.tableExists = false then (.noTable, none)
  else
    match whereColumn, whereValue with
    | some wc, some wv =>
      match findColumnIndex s.columns wc with
      | none => (.columnNotFound, none)
      | some wIdx =>
        match selectRows env s.columns wIdx wv (typeAt s wIdx) s.records with
        | [] => (.noRecords, none)
        | rows => (.ok, some rows)
    | _, _ => (.invalidValue, none)

/-- The accumulator loop of `min` (lines 872-893) for the integer-compared
types (`INT32` and `EPOCH` read through an `int32_t` view): state is
`(hasValue, minVal)`. -/
def scanMinI (env : Env) (cIdx : Nat) : List Record → Bool → Int → Bool × Int
  | [], hv, acc => (hv, acc)
  | r :: rest, hv, acc =>
    if live env r then
      let v := toInt32 (r.fieldAt cIdx).asI32
      if !hv || decide (v < acc) then scanMinI env cIdx rest true v
      else scanMinI env cIdx rest hv acc
    else scanMinI env cIdx rest hv acc

/-- The accumulator loop of `max` (lines 944-965) for integer-compared types. -/
def scanMaxI (env : Env) (cIdx : Nat) : List Record → Bool → Int → Bool × Int
  | [], hv, acc => (hv, acc)
  | r :: rest, hv, acc =>
    if live env r then
      let v := toInt32 (r.fieldAt cIdx).asI32
      if !hv || decide (acc < v) then scanMaxI env cIdx rest true v
      else scanMaxI env cIdx rest hv acc
    else scanMaxI env cIdx rest hv acc

/-- The accumulator loop of `min` for `FLOAT` columns (patterns compared via
the float unit). -/
def scanMinF (env : Env) (cIdx : Nat) : List Record → Bool → Nat → Bool × Nat
  | [], hv, acc => (hv, acc)
  | r :: rest, hv, acc =>
    if live env r then
      let v := (r.fieldAt cIdx).asFloat
      if !hv || env.fops.flt v acc then scanMinF env cIdx rest true v
      else scanMinF env cIdx rest hv acc
    else scanMinF env cIdx rest hv acc

/-- The accumulator loop of `max` for `FLOAT` columns. -/
def scanMaxF (env : Env) (cIdx : Nat) : List Record → Bool → Nat → Bool × Nat
  | [], hv, acc => (hv, acc)
  | r :: rest, hv, acc =>
    if live env r then
      let v := (r.fieldAt cIdx).asFloat
      if !hv || env.fops.fgt v acc then scanMaxF env cIdx rest true v
      else scanMaxF env cIdx rest hv acc
    else scanMaxF env cIdx rest hv acc

/-- Assemble the result struct written at the end of `min`/`max`
(lines 900-907): `INT32` keeps the signed accumulator, `EPOCH` casts it back
to `uint32_t`. -/
def extremeResult (t : DType) (ival : Int) (fval : Nat) : SelectResult :=
  match t with
  | .int32 => ⟨t, .i32 (pat32 ival)⟩
  | .epoch => ⟨t, .epoch (pat32 ival)⟩
  | _ => ⟨t, .float fval⟩

/-- `min` (line 842).  `0x7FFFFFFF` and the max-float pattern initialise the
accumulators; they are never read before `hasValue` is set. -/
def min (env : Env) (s : Store) (column : Option (List Nat)) :
    IMDBResult × Option SelectResult :=
  if s.tableExists = false then (.noTable, none)
  else
    match column with
    | none => (.invalidValue, none)
    | some c =>
      match findColumnIndex s.columns c with
      | none => (.columnNotFound, none)
      | some cIdx =>
        let t := typeAt s cIdx
        if t ≠ .int32 ∧ t ≠ .epoch ∧ t ≠ .float then (.invalidType, none)
        else if t = .float then
          match scanMinF env cIdx s.records false 2139095039 with
          | (false, _) => (.noRecords, none)
          | (true, m) => (.ok, some (extremeResult t 0 m))
        else
          match scanMinI env cIdx s.records false 2147483647 with
          | (false, _) => (.noRecords, none)
          | (true, m) => (.ok, some (extremeResult t m 0))

/-- `max` (line 914). -/
def max (env : Env) (s : Store) (column : Option (List Nat)) :
    IMDBResult × Option SelectResult :=
  if s.tableExists = false then (.noTable, none)
  else
    match column with
    | none => (.invalidValue, none)
    | some c =>
      match findColumnIndex s.columns c with
      | none => (.columnNotFound, none)
      | some cIdx =>
        let t := typeAt s cIdx
        if t ≠ .int32 ∧ t ≠ .epoch ∧ t ≠ .float then (.invalidType, none)
        else if t = .float then
          match scanMaxF env cIdx s.records false 4286578687 with
          | (false, _) => (.noRecords, none)
          | (true, m) => (.ok, some (extremeResult t 0 m))
        else
          match scanMaxI env cIdx s.records false (-2147483648) with
          | (false, _) => (.noRecords, none)
          | (true, m) => (.ok, some (extremeResult t m 0))

/-- The fill loop of `top` (lines 1024-1033): collect full rows of the first
`returnCount` live records in store order. -/
def topFill (env : Env) (cols : List Column) : Nat → List Record → List (List SelectResult)
  | _, [] => []
  | n, r :: rest =>
    if n = 0 then []
    else if live env r then rowOf cols r :: topFill env cols (n - 1) rest
    else topFill env cols n rest

/-- `top` (line 986): the first `min n validCount` live records, all
columns, in store order. -/
def top (env : Env) (s : Store) (n : Nat) : IMDBResult × Option (List (List SelectResult)) :=
  if s.tableExists = false then (.noTable, none)
  else
    let validCount := countLive env s.records
    if validCount = 0 then (.noRecords, none)
    else
      let returnCount := if n < validCount then n else validCount
      (.ok, some (topFill env s.columns returnCount s.records))

/-- The scan loop of `update` (lines 470-490).  Skips invalid or expired
records; on a match the old string value (if the set column is a string) is
freed and nulled before `copyFieldValue` runs, so a failing copy leaves that
record's string field null and aborts the scan with the error, keeping
earlier updates and leaving later records untouched.  Returns the record
list after the scan, the `updated` flag, and the aborting error if any. -/
def updateScan (env : Env) (wIdx sIdx : Nat) (wType sType : DType)
    (wVal sVal : FieldValue) : List Record → List Record × Bool × Option IMDBResult
  | [] => ([], false, none)
  | r :: rest =>
    if live env r then
      if compareValues env.fops (r.fieldAt wIdx) wVal wType .eq then
        match copyFieldValue sVal sType with
        | .error e =>
          let rFreed := if sType = .str then r.setField sIdx (.str none) else r
          (rFreed :: rest, false, some e)
        | .ok f =>
          let t := updateScan env wIdx sIdx wType sType wVal sVal rest
          (r.setField sIdx f :: t.1, true, t.2.2)
      else
        let t := updateScan env wIdx sIdx wType sType wVal sVal rest
        (r :: t.1, t.2.1, t.2.2)
    else
      let t := updateScan env wIdx sIdx wType sType wVal sVal rest
      (r :: t.1, t.2.1, t.2.2)

/-- `update` (line 446). -/
def update (env : Env) (s : Store) (whereColumn : Option (List Nat))
    (whereValue : Option FieldValue) (setColumn : Option (List Nat))
    (setValue : Option FieldValue) : IMDBResult × Store :=
  if s.tableExists = false then (.noTable, s)
  else
    match whereColumn, whereValue, setColumn, setValue with
    | some wc, some wv, some sc, some sv =>
      match findColumnIndex s.columns wc, findColumnIndex s.columns sc with
      | some wIdx, some sIdx =>
        let t := updateScan env wIdx sIdx (typeAt s wIdx) (typeAt s sIdx) wv sv s.records
        match t.2.2 with
        | some e => (e, { s with records := t.1 })
        | none => ((if t.2.1 then .ok else .noRecords), { s with records := t.1 })
      | _, _ => (.columnNotFound, s)
    | _, _, _, _ => (.invalidValue, s)

/-- The integer arm of `updateWithMath` (lines 572-602): wrapping
two's-complement add/subtract/multiply; divide and modulo check the operand
for zero before touching the field and truncate toward zero (C `/` and `%`
on `int32_t`). -/
def applyIntMath (op : IMDBMathOp) (a : Nat) (operand : Int) : Except IMDBResult Nat :=
  match op with
  | .add => .ok (pat32 (toInt32 a + operand))
  | .sub => .ok (pat32 (toInt32 a - operand))
  | .mul => .ok (pat32 (toInt32 a * operand))
  | .div =>
    if operand = 0 then .error .invalidOperation
    else .ok (pat32 (Int.tdiv (toInt32 a) operand))
  | .mod =>
    if operand = 0 then .error .invalidOperation
    else .ok (pat32 (Int.tmod (toInt32 a) operand))

/-- The float arm of `updateWithMath` (lines 542-571): the zero check is on
the integer operand, before any write; arithmetic goes through the abstract
float unit with the operand converted by `(float)operand`. -/
def applyFloatMath (F : FloatOps) (op : IMDBMathOp) (a : Nat) (operand : Int) :
    Except IMDBResult Nat :=
  match op with
  | .add => .ok (F.fadd a (F.ofInt operand))
  | .sub => .ok (F.fsub a (F.ofInt operand))
  | .mul => .ok (F.fmul a (F.ofInt operand))
  | .div =>
    if operand = 0 then .error .invalidOperation
    else .ok (F.fdiv a (F.ofInt operand))
  | .mod =>
    if operand = 0 then .error .invalidOperation
    else .ok (F.fmod a (F.ofInt operand))

/-- Write a computed numeric pattern back through the typed pointer used by
`updateWithMath` (`int32Value`, `epochValue` or `floatValue`). -/
def mkNum (t : DType) (p : Nat) : FieldValue :=
  match t with
  | .epoch => .epoch p
  | .float => .float p
  | _ => .i32 p

/-- The scan loop of `updateWithMath` (lines 536-606). -/
def mathScan (env : Env) (wIdx sIdx : Nat) (wType sType : DType)
    (wVal : FieldValue) (op : IMDBMathOp) (operand : Int) :
    List Record → List Record × Bool × Option IMDBResult
  | [] => ([], false, none)
  | r :: rest =>
    if live env r then
      if compareValues env.fops (r.fieldAt wIdx) wVal wType .eq then
        match (if sType = .float then applyFloatMath env.fops op (r.fieldAt sIdx).asFloat operand
               else applyIntMath op (r.fieldAt sIdx).asI32 operand) with
        | .error e => (r :: rest, false, some e)
        | .ok p =>
          let t := mathScan env wIdx sIdx wType sType wVal op operand rest
          (r.setField sIdx (mkNum sType p) :: t.1, true, t.2.2)
      else
        let t := mathScan env wIdx sIdx wType sType wVal op operand rest
        (r :: t.1, t.2.1, t.2.2)
    else
      let t := mathScan env wIdx sIdx wType sType wVal op operand rest
      (r :: t.1, t.2.1, t.2.2)

/-- `updateWithMath` (line 503): non-numeric set columns are rejected with
`INVALID_TYPE` before the scan. -/
def updateWithMath (env : Env) (s : Store) (whereColumn : Option (List Nat))
    (whereValue : Option FieldValue) (setColumn : Option (List Nat))
    (op : IMDBMathOp) (operand : Int) : IMDBResult × Store :=
  if s.tableExists = false then (.noTable, s)
  else
    match whereColumn, whereValue, setColumn with
    | some wc, some wv, some sc =>
      match findColumnIndex s.columns wc, findColumnIndex s.columns sc with
      | some wIdx, some sIdx =>
        if typeAt s sIdx ≠ .int32 ∧ typeAt s sIdx ≠ .epoch ∧ typeAt s sIdx ≠ .float then
          (.invalidType, s)
        else
          let t := mathScan env wIdx sIdx (typeAt s wIdx) (typeAt s sIdx) wv op operand s.records
          match t.2.2 with
          | some e => (e, { s with records := t.1 })
          | none => ((if t.2.1 then .ok else .noRecords), { s with records := t.1 })
      | _, _ => (.columnNotFound, s)
    | _, _, _ => (.invalidValue, s)

/-- `freeRecord` (line 147): all field memory released, `fields` nulled. -/
def freeRecord (r : Record) : Record :=
  { r with fields := [] }

/-- `compactRecords` (line 252): single forward pass with a write cursor;
on a list this keeps exactly the valid records, in order, and truncates the
count to the survivors. -/
def compactRecords : List Record → List Record
  | [] => []
  | r :: rest =>
    if r.isValid then r :: compactRecords rest else compactRecords rest

/-- The marking loop of `deleteRecords` (lines 633-643).  NOTE: unlike every
query scan, this loop checks only `isValid` — it does not skip expired
records (source line 634). -/
def deleteScan (env : Env) (wIdx : Nat) (wVal : FieldValue) (wType : DType) :
    List Record → List Record × Bool
  | [] => ([], false)
  | r :: rest =>
    if r.isValid then
      if compareValues env.fops (r.fieldAt wIdx) wVal wType .eq then
        let t := deleteScan env wIdx wVal wType rest
        ({ freeRecord r with isValid := false } :: t.1, true)
      else
        let t := deleteScan env wIdx wVal wType rest
        (r :: t.1, t.2)
    else
      let t := deleteScan env wIdx wVal wType rest
      (r :: t.1, t.2)

/-- `deleteRecords` (line 613). -/
def deleteRecords (env : Env) (s : Store) (whereColumn : Option (List Nat))
    (whereValue : Option FieldValue) : IMDBResult × Store :=
  if s.tableExists = false then (.noTable, s)
  else
    match whereColumn, whereValue with
    | some wc, some wv =>
      match findColumnIndex s.columns wc with
      | none => (.columnNotFound, s)
      | some wIdx =>
        let t := deleteScan env wIdx wv (typeAt s wIdx) s.records
        if t.2 then (.ok, { s with records := compactRecords t.1 })
        else (.noRecords, { s with records := t.1 })
    | _, _ => (.invalidValue, s)

/-- The marking loop of `purgeExpiredRecords` (lines 239-244): free and
invalidate every valid, expired record. -/
def markExpired (env : Env) : List Record → List Record
  | [] => []
  | r :: rest =>
    (if r.isValid && isRecordExpired env.now r.expiryMillis
     then { freeRecord r with isValid := false } else r) :: markExpired env rest

/-- `purgeExpiredRecords` (line 231). -/
def purgeExpiredRecords (env : Env) (s : Store) : Store :=
  if s.tableExists = false then s
  else { s with records := compactRecords (markExpired env s.records) }

/-- `createTable` (line 72).  The column array argument is a nullable
pointer to `columnCount` entries; a null pointer or zero count is
`INVALID_VALUE`. -/
def createTable (env : Env) (s : Store) (columns : Option (List Column)) :
    IMDBResult × Store :=
  if s.tableExists then (.tableExists, s)
  else
    match columns with
    | none => (.invalidValue, s)
    | some cols =>
      if cols.length = 0 then (.invalidValue, s)
      else if checkHeapLimit env = false then (.heapLimit, s)
      else (.ok, ⟨true, cols, []⟩)

/-! ### Persistence codec (saveToFile / loadFromFile, lines 1163-1709)

The SPIFFS file is a byte list.  `saveToFile` yields the bytes of a
successful write (the temp-file/rename shuffle and write-failure cleanup are
raw file I/O outside the core); `loadFromFile` parses a byte list with the
same checks, error codes and clock re-basing as the source. -/

/-- Little-endian 2-byte encoding of a `uint16_t`. -/
def enc16 (v : Nat) : List Nat :=
  [v % 256, v / 256 % 256]

/-- Little-endian 4-byte encoding of a 32-bit pattern. -/
def enc32 (v : Nat) : List Nat :=
  [v % 256, v / 256 % 256, v / 65536 % 256, v / 16777216 % 256]

/-- The on-disk type tag: the numeric value of `IMDBDataType`. -/
def encodeTypeByte : DType → Nat
  | .int32 => 0
  | .mac => 1
  | .str => 2
  | .epoch => 3
  | .bool => 4
  | .float => 5

/-- Decode a stored type tag.  The source casts the raw byte straight into
the enum; an out-of-range tag yields an enum value no switch matches.  Only
files the store itself never writes contain such tags, and no claim touches
them, so they are mapped to `int32` here. -/
def decodeType (b : Nat) : DType :=
  if b = 0 then .int32
  else if b = 1 then .mac
  else if b = 2 then .str
  else if b = 3 then .epoch
  else if b = 4 then .bool
  else if b = 5 then .float
  else .int32

/-- Schema entry bytes (lines 1244-1259): the raw 32-byte name then the tag. -/
def serColumn (c : Column) : List Nat :=
  c.name ++ [encodeTypeByte c.type]

/-- The schema write loop. -/
def serSchema : List Column → List Nat
  | [] => []
  | c :: cs => serColumn c ++ serSchema cs

/-- Field bytes (lines 1287-1359).  A string writes a length byte holding
`strlen` clamped to 255 and then that many content bytes; a null string
writes length 0. -/
def serField (t : DType) (f : FieldValue) : List Nat :=
  match t with
  | .int32 => enc32 f.asI32
  | .float => enc32 f.asFloat
  | .bool => [if f.asBool then 1 else 0]
  | .mac => f.asMac
  | .epoch => enc32 f.asEpoch
  | .str =>
    match f.asStr with
    | none => [0]
    | some s => Nat.min s.length 255 :: s.take 255

/-- The per-record field write loop (positional over the schema). -/
def serFields : List Column → List FieldValue → List Nat
  | [], _ => []
  | c :: cs, fs => serField c.type (fs.headD (.i32 0)) ++ serFields cs fs.tail

/-- Record bytes (lines 1262-1361): validity byte, raw expiry, fields. -/
def serRecord (cols : List Column) (r : Record) : List Nat :=
  (if r.isValid then 1 else 0) :: enc32 r.expiryMillis ++ serFields cols r.fields

/-- The record write loop. -/
def serRecords (cols : List Column) : List Record → List Nat
  | [] => []
  | r :: rest => serRecord cols r ++ serRecords cols rest

/-- The full file image (lines 1203-1361): magic "IMDB", version 1, column
count byte, record count (uint16), save clock (uint32), schema, records. -/
def serialize (cols : List Column) (recs : List Record) (saveMillis : Nat) : List Nat :=
  [73, 77, 68, 66] ++ [1] ++ [cols.length] ++ enc16 recs.length
    ++ enc32 saveMillis ++ serSchema cols ++ serRecords cols recs

/-- `saveToFile` (line 1163): purge expired records in place, compact, then
refuse more than 65535 survivors before writing anything; on success the
third component holds the file bytes. -/
def saveToFile (env : Env) (s : Store) : IMDBResult × Store × Option (List Nat) :=
  if s.tableExists = false then (.noTable, s, none)
  else
    let purged := compactRecords (markExpired env s.records)
    if 65535 < purged.length then (.invalidOperation, { s with records := purged }, none)
    else (.ok, { s with records := purged }, some (serialize s.columns purged env.now))

/-- Read one byte of the file. -/
def readByte : List Nat → Option (Nat × List Nat)
  | [] => none
  | b :: rest => some (b, rest)

/-- Read exactly `n` bytes, failing on a short file. -/
def readN : Nat → List Nat → Option (List Nat × List Nat)
  | 0, bs => some ([], bs)
  | _ + 1, [] => none
  | n + 1, b :: rest =>
    match readN n rest with
    | none => none
    | some (xs, rest') => some (b :: xs, rest')

/-- Read a little-endian `uint16_t`. -/
def readU16 (bs : List Nat) : Option (Nat × List Nat) :=
  match readByte bs with
  | none => none
  | some (b0, bs) =>
    match readByte bs with
    | none => none
    | some (b1, bs) => some (b0 + 256 * b1, bs)

/-- Read a little-endian 32-bit pattern. -/
def readU32 (bs : List Nat) : Option (Nat × List Nat) :=
  match readN 4 bs with
  | some ([b0, b1, b2, b3], bs) => some (b0 + 256 * b1 + 65536 * b2 + 16777216 * b3, bs)
  | _ => none

/-- Header parse (lines 1407-1442): magic, version, column count, record
count, save clock.  Every failure in this region is `CORRUPT_FILE`. -/
def readHeader (bs : List Nat) : Option (Nat × Nat × Nat × List Nat) :=
  match readN 4 bs with
  | none => none
  | some (magic, bs) =>
    if magic ≠ [73, 77, 68, 66] then none
    else
      match readByte bs with
      | none => none
      | some (ver, bs) =>
        if ver ≠ 1 then none
        else
          match readByte bs with
          | none => none
          | some (colCount, bs) =>
            match readU16 bs with
            | none => none
            | some (recCount, bs) =>
              match readU32 bs with
              | none => none
              | some (saveMillis, bs) => some (colCount, recCount, saveMillis, bs)

/-- Schema parse (lines 1458-1476). -/
def readSchema : Nat → List Nat → Option (List Column × List Nat)
  | 0, bs => some ([], bs)
  | n + 1, bs =>
    match readN 32 bs with
    | none => none
    | some (name, bs) =>
      match readByte bs with
      | none => none
      | some (tb, bs) =>
        match readSchema n bs with
        | none => none
        | some (cols, bs) => some (⟨name, decodeType tb⟩ :: cols, bs)

/-- One field parse (lines 1602-1669).  A length byte above
`IMDB_MAX_STRING_LENGTH` is rejected; a zero length loads a null string. -/
def readField (t : DType) (bs : List Nat) : Option (FieldValue × List Nat) :=
  match t with
  | .int32 =>
    match readU32 bs with
    | none => none
    | some (v, bs) => some (.i32 v, bs)
  | .float =>
    match readU32 bs with
    | none => none
    | some (v, bs) => some (.float v, bs)
  | .bool =>
    match readByte bs with
    | none => none
    | some (b, bs) => some (.bool (decide (b ≠ 0)), bs)
  | .mac =>
    match readN 6 bs with
    | none => none
    | some (m, bs) => some (.mac m, bs)
  | .epoch =>
    match readU32 bs with
    | none => none
    | some (v, bs) => some (.epoch v, bs)
  | .str =>
    match readByte bs with
    | none => none
    | some (len, bs) =>
      if 255 < len then none
      else if len = 0 then some (.str none, bs)
      else
        match readN len bs with
        | none => none
        | some (content, bs) => some (.str (some content), bs)

/-- The field parse loop of one record. -/
def readFields : List Column → List Nat → Option (List FieldValue × List Nat)
  | [], bs => some ([], bs)
  | c :: cs, bs =>
    match readField c.type bs with
    | none => none
    | some (f, bs) =>
      match readFields cs bs with
      | none => none
      | some (fs, bs) => some (f :: fs, bs)

/-- The record parse loop (lines 1506-1704).  `hp` is the constant result
of the in-loop `checkHeapLimit` call guarding each record's field
allocation; a nonzero saved expiry is re-based onto the new session clock,
`newExpiry = now + (savedExpiry - saveMillis)` in wrapping 32-bit
arithmetic. -/
def readRecords (hp : Bool) (cols : List Column) (saveMillis now : Nat) :
    Nat → List Nat → Except IMDBResult (List Record × List Nat)
  | 0, bs => .ok ([], bs)
  | n + 1, bs =>
    match readByte bs with
    | none => .error .fileRead
    | some (vb, bs) =>
      match readU32 bs with
      | none => .error .fileRead
      | some (se, bs) =>
        if hp = false then .error .heapLimit
        else
          match readFields cols bs with
          | none => .error .fileRead
          | some (fs, bs) =>
            let expiry := if se = 0 then 0 else add32 now (sub32 se saveMillis)
            match readRecords hp cols saveMillis now n bs with
            | .error e => .error e
            | .ok (recs, bs) => .ok (⟨fs, expiry, decide (vb ≠ 0)⟩ :: recs, bs)

/-- `loadFromFile` (line 1380): refuses to overwrite an existing table;
header failures are `CORRUPT_FILE`, later short reads `FILE_READ`; the
free-heap guard runs before the schema allocation, before the record-array
allocation and before each record's field allocation.  Any failure leaves
the store untouched (all-or-nothing). -/
def loadFromFile (env : Env) (s : Store) (bs : List Nat) : IMDBResult × Store :=
  if s.tableExists then (.tableExists, s)
  else
    match readHeader bs with
    | none => (.corruptFile, s)
    | some (colCount, recCount, saveMillis, bs1) =>
      if checkHeapLimit env = false then (.heapLimit, s)
      else
        match readSchema colCount bs1 with
        | none => (.fileRead, s)
        | some (cols, bs2) =>
          if checkHeapLimit env = false then (.heapLimit, s)
          else
            match readRecords (checkHeapLimit env) cols saveMillis env.now recCount bs2 with
            | .error e => (e, s)
            | .ok (recs, _) => (.ok, ⟨true, cols, recs⟩)

/-! ### Well-formedness of reachable stores

Invariants every store reachable through the public API satisfies: the
schema has 1-255 columns (the count is a `uint8_t`), each name array is 32
bytes, each record's fields align positionally with the schema, stored
scalars are 32-bit patterns, stored MAC fields hold 6 bytes, and stored
string buffers hold at most 255 NUL-free content bytes. -/

/-- A byte list holds bytes. -/
def bytesOk (bs : List Nat) : Bool :=
  bs.all (fun b => decide (b < 256))

/-- Well-formed column. -/
def wfColumn (c : Column) : Bool :=
  decide (c.name.length = 32) && bytesOk c.name

/-- Well-formed stored field of a given column type. -/
def wfField : DType → FieldValue → Bool
  | .int32, .i32 p => decide (p < 4294967296)
  | .mac, .mac bs => decide (bs.length = 6) && bytesOk bs
  | .str, .str none => true
  | .str, .str (some s) => decide (s.length ≤ 255) && s.all (fun b => decide (0 < b) && decide (b < 256))
  | .epoch, .epoch p => decide (p < 4294967296)
  | .bool, .bool _ => true
  | .float, .float p => decide (p < 4294967296)
  | _, _ => false

/-- Positional alignment of one record's fields with the schema. -/
def wfFields : List Column → List FieldValue → Bool
  | [], [] => true
  | c :: cs, f :: fs => wfField c.type f && wfFields cs fs
  | _, _ => false

/-- Well-formed record under a schema. -/
def wfRecord (cols : List Column) (r : Record) : Bool :=
  wfFields cols r.fields && decide (r.expiryMillis < 4294967296)

/-- Well-formed store with a table. -/
def wfStore (s : Store) : Bool :=
  s.tableExists && decide (1 ≤ s.columns.length) && decide (s.columns.length ≤ 255)
    && s.columns.all wfColumn && s.records.all (wfRecord s.columns)

/-- The identity the load path applies to a saved field: an allocated empty
string comes back as the null string (both print and compare as ""); every
other value is reproduced bit-identically. -/
def canonField (t : DType) (f : FieldValue) : FieldValue :=
  match t, f with
  | .str, .str (some []) => .str none
  | _, _ => f

/-- `canonField` across one record's fields. -/
def canonFields : List Column → List FieldValue → List FieldValue
  | [], _ => []
  | _ :: _, [] => []
  | c :: cs, f :: fs => canonField c.type f :: canonFields cs fs

/-! ### Concrete fixtures for witnesses and counterexamples -/

/-- A float unit whose operations all return zero / false; the claims
proved below hold for every float unit, so any instance serves a witness. -/
def F0 : FloatOps :=
  ⟨fun _ _ => 0, fun _ _ => 0, fun _ _ => 0, fun _ _ => 0, fun _ _ => 0,
   fun _ _ => false, fun _ _ => false, fun _ _ => false, fun _ _ => false,
   fun _ _ => false, fun _ _ => false, fun _ => 0⟩

/-- Clock at 100 ms, ample heap. -/
def env0 : Env := ⟨100, 100000, F0⟩

/-- Clock at 100 ms, zero free heap (below `IMDB_MIN_HEAP_BYTES`). -/
def envLow : Env := ⟨100, 0, F0⟩

/-- 32-byte name array for the single-letter name "a". -/
def nameA : List Nat := 97 :: List.replicate 31 0

/-- 32-byte name array for the single-letter name "e". -/
def nameE : List Nat := 101 :: List.replicate 31 0

/-- Schema column `a : INT32`. -/
def colA : Column := ⟨nameA, .int32⟩

/-- Schema column `e : EPOCH`. -/
def colE : Column := ⟨nameE, .epoch⟩

/-- A record that is still valid but expired at clock 100 (expiry 1). -/
def recExpired : Record := ⟨[.i32 5], 1, true⟩

/-- A live record with no expiry. -/
def recLive : Record := ⟨[.i32 5], 0, true⟩

/-- One-column table holding only the expired-but-unpurged record. -/
def storeExpired : Store := ⟨true, [colA], [recExpired]⟩

/-- One-column table holding one live record. -/
def storeLive : Store := ⟨true, [colA], [recLive]⟩

/-- Epoch table holding the values 1 and `2^31`. -/
def storeEpoch : Store :=
  ⟨true, [colE], [⟨[.epoch 1], 0, true⟩, ⟨[.epoch 2147483648], 0, true⟩]⟩

/-- Empty fresh store (a just-constructed `ESP32IMDB` object). -/
def emptyStore : Store := ⟨false, [], []⟩

/-- One-column table with no records yet. -/
def baseA : Store := ⟨true, [colA], []⟩

/-- The insert argument row `(0)` for the one-column `INT32` schema. -/
def valsOne : Option (List (Option FieldValue)) := some [some (.i32 0)]

/-- `n` successive `insert` calls of `(0)` with no TTL. -/
def iterInsert (env : Env) (vals : Option (List (Option FieldValue))) (s : Store) :
    Nat → Store
  | 0 => s
  | n + 1 => (insert env (iterInsert env vals s n) vals 0).2

/-- The store after 65536 successful inserts into the one-column table. -/
def bigStore : Store := iterInsert env0 valsOne baseA 65536

/-- Insert the record `r` back at position `n` of a record list (used to
relate a scan over a list containing a skipped record to the scan over the
list without it). -/
def spliceAt (n : Nat) (r : Record) (l : List Record) : List Record :=
  l.take n ++ r :: l.drop n

/-- The record produced by the load path for a saved record: fields
reproduced (`canonFields`), validity preserved, a nonzero expiry re-based
from the save clock `sm` onto the load clock `now`. -/
def loadRec (cols : List Column) (sm now : Nat) (r : Record) : Record :=
  ⟨canonFields cols r.fields,
   if r.expiryMillis = 0 then 0 else add32 now (sub32 r.expiryMillis sm),
   r.isValid⟩

/-- The signed values of the scanned column over the live records, in store
order (the sequence `min`/`max` folds over). -/
def liveVals (env : Env) (cIdx : Nat) (l : List Record) : List Int :=
  (l.filter (live env)).map (fun r => toInt32 (r.fieldAt cIdx).asI32)

/-- Second column `n : STRING` for the round-trip witness. -/
def colS : Column := ⟨110 :: List.replicate 31 0, .str⟩

/-- Two-column store with one record for the round-trip witness. -/
def storeRT : Store :=
  ⟨true, [colA, colS], [⟨[.i32 7, .str (some [104, 105])], 0, true⟩]⟩

/-- Load-side environment for the round-trip witness. -/
def envLoad : Env := ⟨7000, 40000, F0⟩

/-! ## Theorems -/

theorem toInt32_nonneg_iff (x : Nat) (hx : x < 4294967296) :
    0 ≤ toInt32 x ↔ x < 2147483648 := by
  unfold toInt32
  split <;> omega

/-- C7: the expiry predicate: a zero expiry never expires; a nonzero expiry
is expired exactly when the wrapping 32-bit difference `now - expiry`,
reinterpreted as a signed 32-bit integer, is nonnegative — equivalently,
exactly when that wrapped difference lies below `2^31`. -/
theorem c7_expiry_predicate (now e : Nat) :
    isRecordExpired now 0 = false ∧
    (e ≠ 0 → (isRecordExpired now e = true ↔ 0 ≤ toInt32 (sub32 now e))) ∧
    (e ≠ 0 → (isRecordExpired now e = true ↔ sub32 now e < 2147483648)) := by
  refine ⟨rfl, ?_, ?_⟩ <;> intro he
  · simp [isRecordExpired, he]
  · have hlt : sub32 now e < 4294967296 := Nat.mod_lt _ (by omega)
    simp [isRecordExpired, he, toInt32_nonneg_iff _ hlt]

theorem c7_expiry_predicate_witness :
    (3 : Nat) ≠ 0 ∧
    (isRecordExpired 100 0 = false ∧
      ((3 : Nat) ≠ 0 → (isRecordExpired 100 3 = true ↔ 0 ≤ toInt32 (sub32 100 3))) ∧
      ((3 : Nat) ≠ 0 → (isRecordExpired 100 3 = true ↔ sub32 100 3 < 2147483648))) :=
  ⟨by decide, c7_expiry_predicate 100 3⟩

theorem compactRecords_eq_filter (l : List Record) :
    compactRecords l = l.filter (fun r => r.isValid) := by
  induction l with
  | nil => rfl
  | cons r rest ih =>
    by_cases h : r.isValid <;> simp [compactRecords, h, ih]

/-- C6: compaction keeps exactly the valid records, in their original
relative order (a sublist of the input), truncates the count to the number
of valid records, loses no valid record; and invalidating the record at
position `l₁.length` of an all-valid list then compacting erases exactly
that record, leaving the rest in order. -/
theorem c6_compaction_order (l l₁ l₂ : List Record) (r : Record)
    (hvalid : ∀ x ∈ l₁ ++ r :: l₂, x.isValid = true) :
    List.Sublist (compactRecords l) l ∧
    (compactRecords l).length = l.countP (fun x => x.isValid) ∧
    (∀ x ∈ l, x.isValid = true → x ∈ compactRecords l) ∧
    compactRecords (l₁ ++ { freeRecord r with isValid := false } :: l₂) = l₁ ++ l₂ := by
  refine ⟨?_, ?_, ?_, ?_⟩
  · rw [compactRecords_eq_filter]
    exact List.filter_sublist _
  · rw [compactRecords_eq_filter, List.countP_eq_length_filter]
  · intro x hx hv
    rw [compactRecords_eq_filter]
    exact List.mem_filter.mpr ⟨hx, hv⟩
  · rw [compactRecords_eq_filter, List.filter_append]
    have h₁ : l₁.filter (fun x => x.isValid) = l₁ :=
      List.filter_eq_self.mpr fun x hx => by
        simpa using hvalid x (List.mem_append_left _ hx)
    have h₂ : l₂.filter (fun x => x.isValid) = l₂ :=
      List.filter_eq_self.mpr fun x hx => by
        have := hvalid x (List.mem_append_right _ (List.mem_cons_of_mem _ hx))
        simpa using this
    simp [h₁, h₂]

theorem c6_compaction_order_witness :
    (∀ x ∈ [recLive] ++ recExpired :: [recLive], x.isValid = true) ∧
    (List.Sublist (compactRecords [recLive, recExpired]) [recLive, recExpired] ∧
      (compactRecords [recLive, recExpired]).length
        = [recLive, recExpired].countP (fun x => x.isValid) ∧
      (∀ x ∈ [recLive, recExpired], x.isValid = true → x ∈ compactRecords [recLive, recExpired]) ∧
      compactRecords ([recLive] ++ { freeRecord recExpired with isValid := false } :: [recLive])
        = [recLive] ++ [recLive]) :=
  ⟨by decide, c6_compaction_order [recLive, recExpired] [recLive] [recLive] recExpired (by decide)⟩

theorem countWhereLoop_eq_zero (env : Env) (wIdx : Nat) (wVal : FieldValue)
    (wType : DType) (l : List Record)
    (h : ∀ r ∈ l, ¬(live env r = true ∧
      compareValues env.fops (r.fieldAt wIdx) wVal wType .eq = true)) :
    countWhereLoop env wIdx wVal wType l = 0 := by
  induction l with
  | nil => rfl
  | cons r rest ih =>
    have hr := h r (List.mem_cons_self r rest)
    have hcond : (live env r && compareValues env.fops (r.fieldAt wIdx) wVal wType .eq) = false := by
      cases hl : live env r <;>
        cases hc : compareValues env.fops (r.fieldAt wIdx) wVal wType .eq <;> simp_all
    simp only [countWhereLoop, hcond]
    simpa using ih fun x hx => h x (List.mem_cons_of_mem _ hx)

/-- C10: `count` returns 0 when no table exists; `countWhere` returns 0
when no table exists, an argument is null, or the where column is unknown;
and a table with zero matching live records also yields 0, so those
outcomes are indistinguishable from it. -/
theorem c10_count_zero (env : Env) (s : Store) (wc : Option (List Nat))
    (wv : Option FieldValue) :
    (s.tableExists = false → count env s = 0) ∧
    (s.tableExists = false → countWhere env s wc wv = 0) ∧
    (wc = none ∨ wv = none → countWhere env s wc wv = 0) ∧
    (∀ n v, wc = some n → wv = some v → findColumnIndex s.columns n = none →
      countWhere env s wc wv = 0) ∧
    (∀ n v wIdx, wc = some n → wv = some v →
      findColumnIndex s.columns n = some wIdx →
      (∀ r ∈ s.records, ¬(live env r = true ∧
        compareValues env.fops (r.fieldAt wIdx) v (typeAt s wIdx) .eq = true)) →
      countWhere env s wc wv = 0) := by
  refine ⟨?_, ?_, ?_, ?_, ?_⟩
  · intro h
    simp [count, h]
  · intro h
    simp [countWhere, h]
  · intro h
    rcases h with h | h <;> subst h
    · by_cases ht : s.tableExists = false <;> cases wv <;> simp [countWhere, ht]
    · by_cases ht : s.tableExists = false <;> cases wc <;> simp [countWhere, ht]
  · intro n v hn hv hfind
    subst hn
    subst hv
    by_cases ht : s.tableExists <;> simp [countWhere, ht, hfind]
  · intro n v wIdx hn hv hfind hnone
    subst hn
    subst hv
    by_cases ht : s.tableExists <;>
      simp [countWhere, ht, hfind, countWhereLoop_eq_zero env wIdx v (typeAt s wIdx) s.records hnone]

theorem c10_count_zero_witness :
    countWhere env0 storeLive (some [97]) (some (.i32 6)) = 0 :=
  (c10_count_zero env0 storeLive (some [97]) (some (.i32 6))).2.2.2.2
    [97] (.i32 6) 0 rfl rfl (by decide) (by decide)

theorem mathScan_operand_zero (env : Env) (wIdx sIdx : Nat) (wType sType : DType)
    (wVal : FieldValue) (op : IMDBMathOp) (hop : op = .div ∨ op = .mod) :
    ∀ l : List Record,
      mathScan env wIdx sIdx wType sType wVal op 0 l =
        (l, false,
          if l.any (fun r => live env r &&
              compareValues env.fops (r.fieldAt wIdx) wVal wType .eq)
          then some .invalidOperation else none) := by
  intro l
  induction l with
  | nil => rfl
  | cons r rest ih =>
    by_cases hl : live env r
    · by_cases hc : compareValues env.fops (r.fieldAt wIdx) wVal wType .eq
      · have happ : (if sType = .float
            then applyFloatMath env.fops op (r.fieldAt sIdx).asFloat 0
            else applyIntMath op (r.fieldAt sIdx).asI32 0)
            = .error .invalidOperation := by
          rcases hop with h | h <;> subst h <;>
            by_cases hsf : sType = .float <;> simp [hsf, applyFloatMath, applyIntMath]
        simp [mathScan, hl, hc, happ]
      · simp [mathScan, hl, hc, ih]
    · simp [mathScan, hl, ih]

/-- C5: `updateWithMath` with divide or modulo and a zero operand never
returns OK and never mutates the store; when the table exists, the
arguments resolve, the set column is numeric and some live, non-expired
record matches the where condition, the returned error is exactly
`INVALID_OPERATION`. -/
theorem c5_math_div_zero (env : Env) (s : Store) (wc : Option (List Nat))
    (wv : Option FieldValue) (sc : Option (List Nat)) (op : IMDBMathOp)
    (hop : op = .div ∨ op = .mod) :
    (updateWithMath env s wc wv sc op 0).1 ≠ .ok ∧
    (updateWithMath env s wc wv sc op 0).2 = s ∧
    (∀ n v m wIdx sIdx, wc = some n → wv = some v → sc = some m →
      s.tableExists = true →
      findColumnIndex s.columns n = some wIdx →
      findColumnIndex s.columns m = some sIdx →
      ¬(typeAt s sIdx ≠ .int32 ∧ typeAt s sIdx ≠ .epoch ∧ typeAt s sIdx ≠ .float) →
      (∃ r ∈ s.records, live env r = true ∧
        compareValues env.fops (r.fieldAt wIdx) v (typeAt s wIdx) .eq = true) →
      (updateWithMath env s wc wv sc op 0).1 = .invalidOperation) := by
  obtain ⟨te, cols, recs⟩ := s
  have key : ∀ (wIdx sIdx : Nat) (wT sT : DType) (v : FieldValue),
      mathScan env wIdx sIdx wT sT v op 0 recs =
        (recs, false,
          if recs.any (fun r => live env r &&
              compareValues env.fops (r.fieldAt wIdx) v wT .eq)
          then some .invalidOperation else none) :=
    fun wIdx sIdx wT sT v => mathScan_operand_zero env wIdx sIdx wT sT v op hop recs
  have hcase : (updateWithMath env ⟨te, cols, recs⟩ wc wv sc op 0).1 ≠ .ok ∧
      (updateWithMath env ⟨te, cols, recs⟩ wc wv sc op 0).2 = ⟨te, cols, recs⟩ := by
    cases te
    · simp [updateWithMath]
    · cases wc with
      | none => simp [updateWithMath]
      | some n =>
        cases wv with
        | none => simp [updateWithMath]
        | some v =>
          cases sc with
          | none => simp [updateWithMath]
          | some m =>
            cases hw : findColumnIndex cols n <;> cases hs : findColumnIndex cols m <;>
              simp [updateWithMath, hw, hs]
            rename_i wIdx sIdx
            by_cases hty : (typeAt ⟨true, cols, recs⟩ sIdx ≠ .int32 ∧
                typeAt ⟨true, cols, recs⟩ sIdx ≠ .epoch ∧
                typeAt ⟨true, cols, recs⟩ sIdx ≠ .float)
            · simp [hty]
            · rw [if_neg hty, key]
              by_cases hany : recs.any (fun r => live env r &&
                  compareValues env.fops (r.fieldAt wIdx) v (typeAt ⟨true, cols, recs⟩ wIdx) .eq)
                  = true
              · simp [hany]
              · simp [hany]
  refine ⟨hcase.1, hcase.2, ?_⟩
  · intro n v m wIdx sIdx hn hv hm ht hw hs hty hex
    subst hn; subst hv; subst hm
    have hte : te = true := ht
    subst hte
    have hany : recs.any (fun r => live env r &&
        compareValues env.fops (r.fieldAt wIdx) v (typeAt ⟨true, cols, recs⟩ wIdx) .eq) = true := by
      rw [List.any_eq_true]
      obtain ⟨r, hr, h1, h2⟩ := hex
      exact ⟨r, hr, by simp [h1, h2]⟩
    have hw' : findColumnIndex cols n = some wIdx := hw
    have hs' : findColumnIndex cols m = some sIdx := hs
    simp only [updateWithMath, hw', hs']
    rw [if_neg (by simp)]
    rw [if_neg hty, key]
    simp [hany]

theorem copyFieldValue_error_eq (v : FieldValue) (t : DType) (e : IMDBResult)
    (h : copyFieldValue v t = .error e) : e = .invalidValue := by
  cases t with
  | int32 => simp [copyFieldValue] at h
  | mac => simp [copyFieldValue] at h
  | epoch => simp [copyFieldValue] at h
  | bool => simp [copyFieldValue] at h
  | float => simp [copyFieldValue] at h
  | str =>
    rcases hs : v.asStr with _ | s <;> simp [copyFieldValue, hs] at h
    exact h.symm

theorem copyFields_error_eq (cols : List Column) :
    ∀ (vs : List (Option FieldValue)) (e : IMDBResult),
      copyFields cols vs = .error e → e = .invalidValue := by
  induction cols with
  | nil => intro vs e h; simp [copyFields] at h
  | cons c cs ih =>
    intro vs e h
    match vs with
    | [] =>
      simp [copyFields] at h
      exact h.symm
    | none :: vtl =>
      simp [copyFields] at h
      exact h.symm
    | some v :: vtl =>
      simp only [copyFields] at h
      cases hcf : copyFieldValue v c.type with
      | error e' =>
        rw [hcf] at h
        simp at h
        exact h ▸ copyFieldValue_error_eq v c.type e' hcf
      | ok f =>
        rw [hcf] at h
        cases hrest : copyFields cs vtl with
        | error e2 =>
          rw [hrest] at h
          simp at h
          exact h ▸ ih vtl e2 hrest
        | ok fs =>
          rw [hrest] at h
          simp at h

theorem copyFields_bad_err (cols : List Column) (vs : List (Option FieldValue)) :
    ∀ i, i < cols.length →
      (vs.getD i none = none ∨
        ((cols.getD i ⟨[], .int32⟩).type = .str ∧
          ∃ v, vs.getD i none = some v ∧ v.asStr = none)) →
      ∃ e, copyFields cols vs = .error e := by
  induction cols generalizing vs with
  | nil => intro i hi _; simp at hi
  | cons c cs ih =>
    intro i hi hbad
    match vs with
    | [] => exact ⟨.invalidValue, rfl⟩
    | none :: vtl =>
      exact ⟨.invalidValue, rfl⟩
    | some v :: vtl =>
      match i with
      | 0 =>
        rcases hbad with h | ⟨hty, w, hw, hws⟩
        · simp at h
        · have hv : w = v := by simpa using hw.symm
          subst hv
          have hty' : c.type = .str := hty
          refine ⟨.invalidValue, ?_⟩
          simp [copyFields, copyFieldValue, hty', hws]
      | j + 1 =>
        have hj : j < cs.length := by simpa using hi
        have hbad' : vtl.getD j none = none ∨
            ((cs.getD j ⟨[], .int32⟩).type = .str ∧
              ∃ w, vtl.getD j none = some w ∧ w.asStr = none) := by
          simpa using hbad
        obtain ⟨e, he⟩ := ih vtl j hj hbad'
        cases hcf : copyFieldValue v c.type with
        | error e' => exact ⟨e', by simp [copyFields, hcf]⟩
        | ok f => exact ⟨e, by simp [copyFields, hcf, he]⟩

/-- C4: insert is atomic per call: whenever some field value is null (or
the value array is too short) or a string field's source `char*` is null
(the mid-copy encoding failure), `insert` returns an error, appends
nothing, leaves every stored record unchanged, and the store observable
through queries equals the state before the call. -/
theorem c4_insert_atomic (env : Env) (s : Store) (vs : List (Option FieldValue))
    (ttl : Nat) (i : Nat) (hi : i < s.columns.length)
    (hbad : vs.getD i none = none ∨
      ((s.columns.getD i ⟨[], .int32⟩).type = .str ∧
        ∃ v, vs.getD i none = some v ∧ v.asStr = none)) :
    (insert env s (some vs) ttl).1 ≠ .ok ∧
    (insert env s (some vs) ttl).2 = s ∧
    (insert env s (some vs) ttl).2.records = s.records ∧
    count env (insert env s (some vs) ttl).2 = count env s := by
  obtain ⟨te, cols, recs⟩ := s
  have hcase : (insert env ⟨te, cols, recs⟩ (some vs) ttl).1 ≠ .ok ∧
      (insert env ⟨te, cols, recs⟩ (some vs) ttl).2 = ⟨te, cols, recs⟩ := by
    cases te
    · simp [insert]
    · by_cases hh : checkHeapLimit env = false
      · simp [insert, hh]
      · by_cases httl : maxTTL < ttl
        · simp [insert, hh, httl]
        · obtain ⟨e, he⟩ := copyFields_bad_err cols vs i hi hbad
          have hne : e = .invalidValue := copyFields_error_eq cols vs e he
          subst hne
          simp [insert, hh, httl, he]
  exact ⟨hcase.1, hcase.2, by rw [hcase.2], by rw [hcase.2]⟩

theorem c4_insert_atomic_witness :
    ((insert env0 storeLive (some [none]) 0).1 ≠ .ok ∧
     (insert env0 storeLive (some [none]) 0).2 = storeLive ∧
     (insert env0 storeLive (some [none]) 0).2.records = storeLive.records ∧
     count env0 (insert env0 storeLive (some [none]) 0).2 = count env0 storeLive) ∧
    ((insert env0 ⟨true, [colS], []⟩ (some [some (.str none)]) 0).1 ≠ .ok ∧
     (insert env0 ⟨true, [colS], []⟩ (some [some (.str none)]) 0).2 = ⟨true, [colS], []⟩) := by
  have h1 := c4_insert_atomic env0 storeLive [none] 0 0 (by decide) (Or.inl rfl)
  have h2 := c4_insert_atomic env0 ⟨true, [colS], []⟩ [some (.str none)] 0 0 (by decide)
    (Or.inr ⟨by decide, .str none, rfl, rfl⟩)
  exact ⟨h1, h2.1, h2.2.1⟩

theorem c5_math_div_zero_witness :
    ((updateWithMath env0 storeLive (some [97]) (some (.i32 5)) (some [97]) .div 0).1 ≠ .ok ∧
     (updateWithMath env0 storeLive (some [97]) (some (.i32 5)) (some [97]) .div 0).2 = storeLive) ∧
    (updateWithMath env0 storeLive (some [97]) (some (.i32 5)) (some [97]) .div 0).1
      = .invalidOperation := by
  have h := c5_math_div_zero env0 storeLive (some [97]) (some (.i32 5)) (some [97]) .div
    (Or.inl rfl)
  exact ⟨⟨h.1, h.2.1⟩, h.2.2 [97] (.i32 5) [97] 0 0 rfl rfl rfl (by decide) (by decide)
    (by decide) (by decide) ⟨recLive, by decide⟩⟩

theorem updateScan_err (env : Env) (wIdx sIdx : Nat) (wType sType : DType)
    (wVal sVal : FieldValue) :
    ∀ l : List Record,
      (updateScan env wIdx sIdx wType sType wVal sVal l).2.2 = none ∨
      (updateScan env wIdx sIdx wType sType wVal sVal l).2.2 = some .invalidValue := by
  intro l
  induction l with
  | nil => exact Or.inl rfl
  | cons r rest ih =>
    by_cases hl : live env r
    · by_cases hc : compareValues env.fops (r.fieldAt wIdx) wVal wType .eq
      · cases hcf : copyFieldValue sVal sType with
        | error e =>
          right
          have he := copyFieldValue_error_eq sVal sType e hcf
          subst he
          simp [updateScan, hl, hc, hcf]
        | ok f => simpa [updateScan, hl, hc, hcf] using ih
      · simpa [updateScan, hl, hc] using ih
    · simpa [updateScan, hl] using ih

theorem applyIntMath_error_eq (op : IMDBMathOp) (a : Nat) (od : Int) (e : IMDBResult)
    (h : applyIntMath op a od = .error e) : e = .invalidOperation := by
  cases op with
  | add => simp [applyIntMath] at h
  | sub => simp [applyIntMath] at h
  | mul => simp [applyIntMath] at h
  | div =>
    simp only [applyIntMath] at h
    split at h
    · simp at h
      exact h.symm
    · simp at h
  | mod =>
    simp only [applyIntMath] at h
    split at h
    · simp at h
      exact h.symm
    · simp at h

theorem applyFloatMath_error_eq (F : FloatOps) (op : IMDBMathOp) (a : Nat) (od : Int)
    (e : IMDBResult) (h : applyFloatMath F op a od = .error e) : e = .invalidOperation := by
  cases op with
  | add => simp [applyFloatMath] at h
  | sub => simp [applyFloatMath] at h
  | mul => simp [applyFloatMath] at h
  | div =>
    simp only [applyFloatMath] at h
    split at h
    · simp at h
      exact h.symm
    · simp at h
  | mod =>
    simp only [applyFloatMath] at h
    split at h
    · simp at h
      exact h.symm
    · simp at h

theorem mathScan_err (env : Env) (wIdx sIdx : Nat) (wType sType : DType)
    (wVal : FieldValue) (op : IMDBMathOp) (od : Int) :
    ∀ l : List Record,
      (mathScan env wIdx sIdx wType sType wVal op od l).2.2 = none ∨
      (mathScan env wIdx sIdx wType sType wVal op od l).2.2 = some .invalidOperation := by
  intro l
  induction l with
  | nil => exact Or.inl rfl
  | cons r rest ih =>
    by_cases hl : live env r
    · by_cases hc : compareValues env.fops (r.fieldAt wIdx) wVal wType .eq
      · cases hm : (if sType = .float then applyFloatMath env.fops op (r.fieldAt sIdx).asFloat od
            else applyIntMath op (r.fieldAt sIdx).asI32 od) with
        | error e =>
          right
          have he : e = .invalidOperation := by
            by_cases hsf : sType = .float
            · rw [if_pos hsf] at hm
              exact applyFloatMath_error_eq env.fops op _ od e hm
            · rw [if_neg hsf] at hm
              exact applyIntMath_error_eq op _ od e hm
          subst he
          simp [mathScan, hl, hc, hm]
        | ok f => simpa [mathScan, hl, hc, hm] using ih
      · simpa [mathScan, hl, hc] using ih
    · simpa [mathScan, hl] using ih

/-- C2 (amended): the free-heap guard protects `createTable`, `insert`
(before any allocation, including before the TTL check) and `loadFromFile`
(after the header parse, before any allocation); but `update`, `selectAll`
and `top` run no heap check at all — they never return `HEAP_LIMIT`, even
when free heap is below the minimum — and `updateWithMath` (which allocates
nothing) likewise never returns `HEAP_LIMIT`. -/
theorem c2_heap_guard (env : Env) (henv : checkHeapLimit env = false) :
    (∀ (s : Store) (c : Column) (cs : List Column), s.tableExists = false →
      createTable env s (some (c :: cs)) = (.heapLimit, s)) ∧
    (∀ (s : Store) (vs : List (Option FieldValue)) (ttl : Nat), s.tableExists = true →
      insert env s (some vs) ttl = (.heapLimit, s)) ∧
    (∀ (s : Store) (bs : List Nat) (q : Nat × Nat × Nat × List Nat),
      s.tableExists = false → readHeader bs = some q →
      loadFromFile env s bs = (.heapLimit, s)) ∧
    (∀ (s : Store) (wc : Option (List Nat)) (wv : Option FieldValue),
      (selectAll env s wc wv).1 ≠ .heapLimit) ∧
    (∀ (s : Store) (n : Nat), (top env s n).1 ≠ .heapLimit) ∧
    (∀ (s : Store) (wc : Option (List Nat)) (wv : Option FieldValue)
      (sc : Option (List Nat)) (sv : Option FieldValue),
      (update env s wc wv sc sv).1 ≠ .heapLimit) ∧
    (∀ (s : Store) (wc : Option (List Nat)) (wv : Option FieldValue)
      (sc : Option (List Nat)) (op : IMDBMathOp) (od : Int),
      (updateWithMath env s wc wv sc op od).1 ≠ .heapLimit) := by
  refine ⟨?_, ?_, ?_, ?_, ?_, ?_, ?_⟩
  · intro s c cs ht
    simp [createTable, ht, henv]
  · intro s vs ttl ht
    simp [insert, ht, henv]
  · intro s bs q ht hq
    obtain ⟨colCount, recCount, saveMillis, rest⟩ := q
    simp [loadFromFile, ht, hq, henv]
  · intro s wc wv
    obtain ⟨te, cols, recs⟩ := s
    cases te
    · simp [selectAll]
    · cases wc with
      | none => simp [selectAll]
      | some n =>
        cases wv with
        | none => simp [selectAll]
        | some v =>
          cases hf : findColumnIndex cols n with
          | none => simp [selectAll, hf]
          | some wIdx =>
            cases hrows : selectRows env cols wIdx v
                (typeAt ⟨true, cols, recs⟩ wIdx) recs with
            | nil => simp [selectAll, hf, hrows]
            | cons a b => simp [selectAll, hf, hrows]
  · intro s n
    obtain ⟨te, cols, recs⟩ := s
    cases te
    · simp [top]
    · by_cases hvc : countLive env recs = 0 <;> simp [top, hvc]
  · intro s wc wv sc sv
    obtain ⟨te, cols, recs⟩ := s
    cases te
    · simp [update]
    · cases wc with
      | none => simp [update]
      | some n =>
        cases wv with
        | none => simp [update]
        | some v =>
          cases sc with
          | none => simp [update]
          | some m =>
            cases sv with
            | none => simp [update]
            | some v2 =>
              cases hw : findColumnIndex cols n <;> cases hs : findColumnIndex cols m <;>
                simp [update, hw, hs]
              rename_i wIdx sIdx
              have hflag : ∀ b : Bool,
                  (if b = true then IMDBResult.ok else IMDBResult.noRecords)
                    ≠ IMDBResult.heapLimit := by
                intro b
                cases b <;> simp
              rcases updateScan_err env wIdx sIdx (typeAt ⟨true, cols, recs⟩ wIdx)
                  (typeAt ⟨true, cols, recs⟩ sIdx) v v2 recs with h | h <;>
                simp [h, hflag]
  · intro s wc wv sc op od
    obtain ⟨te, cols, recs⟩ := s
    cases te
    · simp [updateWithMath]
    · cases wc with
      | none => simp [updateWithMath]
      | some n =>
        cases wv with
        | none => simp [updateWithMath]
        | some v =>
          cases sc with
          | none => simp [updateWithMath]
          | some m =>
            cases hw : findColumnIndex cols n <;> cases hs : findColumnIndex cols m <;>
              simp [updateWithMath, hw, hs]
            rename_i wIdx sIdx
            by_cases hty : (typeAt ⟨true, cols, recs⟩ sIdx ≠ .int32 ∧
                typeAt ⟨true, cols, recs⟩ sIdx ≠ .epoch ∧
                typeAt ⟨true, cols, recs⟩ sIdx ≠ .float)
            · simp [hty]
            · rw [if_neg hty]
              have hflag : ∀ b : Bool,
                  (if b = true then IMDBResult.ok else IMDBResult.noRecords)
                    ≠ IMDBResult.heapLimit := by
                intro b
                cases b <;> simp
              rcases mathScan_err env wIdx sIdx (typeAt ⟨true, cols, recs⟩ wIdx)
                  (typeAt ⟨true, cols, recs⟩ sIdx) v op od recs with h | h <;>
                simp [h, hflag]

theorem c2_heap_guard_witness :
    checkHeapLimit envLow = false ∧
    insert envLow storeLive valsOne 0 = (.heapLimit, storeLive) ∧
    (selectAll envLow storeLive (some [97]) (some (.i32 5))).1 ≠ .heapLimit ∧
    (top envLow storeLive 1).1 ≠ .heapLimit := by
  have h := c2_heap_guard envLow (by decide)
  exact ⟨by decide, h.2.1 storeLive [some (.i32 0)] 0 (by decide),
    h.2.2.2.1 storeLive (some [97]) (some (.i32 5)), h.2.2.2.2.1 storeLive 1⟩

/-- C2 counterexample: with free heap below the minimum, `selectAll` does
not return the heap-limit error before allocating — it allocates and fills
a result row, returning OK. -/
theorem c2_counterexample :
    checkHeapLimit envLow = false ∧
    selectAll envLow storeLive (some [97]) (some (.i32 5))
      = (.ok, some [[⟨.int32, .i32 5⟩]]) ∧
    (update envLow storeLive (some [97]) (some (.i32 5)) (some [97]) (some (.i32 7))).1 = .ok ∧
    (top envLow storeLive 1).1 = .ok := by
  refine ⟨by decide, by decide, by decide, by decide⟩

theorem spliceAt_cons (n : Nat) (r x : Record) (l : List Record) :
    spliceAt (n + 1) r (x :: l) = x :: spliceAt n r l := by
  simp [spliceAt]

theorem spliceAt_append (l₁ l₂ : List Record) (r : Record) :
    spliceAt l₁.length r (l₁ ++ l₂) = l₁ ++ r :: l₂ := by
  simp [spliceAt, List.take_left, List.drop_left]

theorem countLive_skip (env : Env) (r : Record) (hr : live env r = false) :
    ∀ pre post : List Record,
      countLive env (pre ++ r :: post) = countLive env (pre ++ post) := by
  intro pre post
  induction pre with
  | nil => simp [countLive, hr]
  | cons h t ih => simp [countLive, ih]

theorem countWhereLoop_skip (env : Env) (wIdx : Nat) (wVal : FieldValue) (wType : DType)
    (r : Record) (hr : live env r = false) :
    ∀ pre post : List Record,
      countWhereLoop env wIdx wVal wType (pre ++ r :: post) =
        countWhereLoop env wIdx wVal wType (pre ++ post) := by
  intro pre post
  induction pre with
  | nil => simp [countWhereLoop, hr]
  | cons h t ih => simp [countWhereLoop, ih]

theorem selectLoop_skip (env : Env) (wIdx cIdx : Nat) (wVal : FieldValue)
    (wType cType : DType) (r : Record) (hr : live env r = false) :
    ∀ pre post : List Record,
      selectLoop env wIdx cIdx wVal wType cType (pre ++ r :: post) =
        selectLoop env wIdx cIdx wVal wType cType (pre ++ post) := by
  intro pre post
  induction pre with
  | nil => simp [selectLoop, hr]
  | cons h t ih =>
    by_cases hc : live env h && compareValues env.fops (h.fieldAt wIdx) wVal wType .eq <;>
      simp [selectLoop, hc, ih]

theorem selectRows_skip (env : Env) (cols : List Column) (wIdx : Nat) (wVal : FieldValue)
    (wType : DType) (r : Record) (hr : live env r = false) :
    ∀ pre post : List Record,
      selectRows env cols wIdx wVal wType (pre ++ r :: post) =
        selectRows env cols wIdx wVal wType (pre ++ post) := by
  intro pre post
  induction pre with
  | nil => simp [selectRows, hr]
  | cons h t ih =>
    by_cases hc : live env h && compareValues env.fops (h.fieldAt wIdx) wVal wType .eq <;>
      simp [selectRows, hc, ih]

theorem scanMinI_skip (env : Env) (cIdx : Nat) (r : Record) (hr : live env r = false) :
    ∀ (pre post : List Record) (hv : Bool) (acc : Int),
      scanMinI env cIdx (pre ++ r :: post) hv acc = scanMinI env cIdx (pre ++ post) hv acc := by
  intro pre
  induction pre with
  | nil => intro post hv acc; simp [scanMinI, hr]
  | cons h t ih =>
    intro post hv acc
    simp only [List.cons_append, scanMinI]
    by_cases hl : live env h
    · by_cases hc : (!hv || decide (toInt32 (h.fieldAt cIdx).asI32 < acc)) <;>
        simp [hl, hc, ih]
    · simp [hl, ih]

theorem scanMaxI_skip (env : Env) (cIdx : Nat) (r : Record) (hr : live env r = false) :
    ∀ (pre post : List Record) (hv : Bool) (acc : Int),
      scanMaxI env cIdx (pre ++ r :: post) hv acc = scanMaxI env cIdx (pre ++ post) hv acc := by
  intro pre
  induction pre with
  | nil => intro post hv acc; simp [scanMaxI, hr]
  | cons h t ih =>
    intro post hv acc
    simp only [List.cons_append, scanMaxI]
    by_cases hl : live env h
    · by_cases hc : (!hv || decide (acc < toInt32 (h.fieldAt cIdx).asI32)) <;>
        simp [hl, hc, ih]
    · simp [hl, ih]

theorem scanMinF_skip (env : Env) (cIdx : Nat) (r : Record) (hr : live env r = false) :
    ∀ (pre post : List Record) (hv : Bool) (acc : Nat),
      scanMinF env cIdx (pre ++ r :: post) hv acc = scanMinF env cIdx (pre ++ post) hv acc := by
  intro pre
  induction pre with
  | nil => intro post hv acc; simp [scanMinF, hr]
  | cons h t ih =>
    intro post hv acc
    simp only [List.cons_append, scanMinF]
    by_cases hl : live env h
    · by_cases hc : (!hv || env.fops.flt (h.fieldAt cIdx).asFloat acc) <;>
        simp [hl, hc, ih]
    · simp [hl, ih]

theorem scanMaxF_skip (env : Env) (cIdx : Nat) (r : Record) (hr : live env r = false) :
    ∀ (pre post : List Record) (hv : Bool) (acc : Nat),
      scanMaxF env cIdx (pre ++ r :: post) hv acc = scanMaxF env cIdx (pre ++ post) hv acc := by
  intro pre
  induction pre with
  | nil => intro post hv acc; simp [scanMaxF, hr]
  | cons h t ih =>
    intro post hv acc
    simp only [List.cons_append, scanMaxF]
    by_cases hl : live env h
    · by_cases hc : (!hv || env.fops.fgt (h.fieldAt cIdx).asFloat acc) <;>
        simp [hl, hc, ih]
    · simp [hl, ih]

theorem topFill_zero (env : Env) (cols : List Column) (l : List Record) :
    topFill env cols 0 l = [] := by
  cases l <;> simp [topFill]

theorem topFill_skip (env : Env) (cols : List Column) (r : Record)
    (hr : live env r = false) :
    ∀ (pre post : List Record) (n : Nat),
      topFill env cols n (pre ++ r :: post) = topFill env cols n (pre ++ post) := by
  intro pre
  induction pre with
  | nil =>
    intro post n
    cases n with
    | zero => simp [topFill_zero]
    | succ m => simp [topFill, hr]
  | cons h t ih =>
    intro post n
    cases n with
    | zero => simp [topFill_zero]
    | succ m =>
      simp only [List.cons_append, topFill]
      by_cases hl : live env h <;> simp [hl, ih]

theorem updateScan_splice (env : Env) (wIdx sIdx : Nat) (wT sT : DType)
    (wv sv : FieldValue) (r : Record) (hr : live env r = false) :
    ∀ pre post : List Record,
      updateScan env wIdx sIdx wT sT wv sv (pre ++ r :: post) =
        (spliceAt pre.length r (updateScan env wIdx sIdx wT sT wv sv (pre ++ post)).1,
         (updateScan env wIdx sIdx wT sT wv sv (pre ++ post)).2) := by
  intro pre
  induction pre with
  | nil =>
    intro post
    simp [updateScan, hr, spliceAt]
  | cons h t ih =>
    intro post
    simp only [List.cons_append, updateScan]
    by_cases hl : live env h
    · by_cases hc : compareValues env.fops (h.fieldAt wIdx) wv wT .eq
      · cases hcf : copyFieldValue sv sT with
        | error e =>
          simp [hl, hc, hcf, List.length_cons, spliceAt_cons, spliceAt_append]
        | ok f =>
          simp [hl, hc, hcf, ih, List.length_cons, spliceAt_cons]
      · simp [hl, hc, ih, List.length_cons, spliceAt_cons]
    · simp [hl, ih, List.length_cons, spliceAt_cons]

theorem mathScan_splice (env : Env) (wIdx sIdx : Nat) (wT sT : DType)
    (wv : FieldValue) (op : IMDBMathOp) (od : Int) (r : Record)
    (hr : live env r = false) :
    ∀ pre post : List Record,
      mathScan env wIdx sIdx wT sT wv op od (pre ++ r :: post) =
        (spliceAt pre.length r (mathScan env wIdx sIdx wT sT wv op od (pre ++ post)).1,
         (mathScan env wIdx sIdx wT sT wv op od (pre ++ post)).2) := by
  intro pre
  induction pre with
  | nil =>
    intro post
    simp [mathScan, hr, spliceAt]
  | cons h t ih =>
    intro post
    simp only [List.cons_append, mathScan]
    by_cases hl : live env h
    · by_cases hc : compareValues env.fops (h.fieldAt wIdx) wv wT .eq
      · cases hm : (if sT = .float then applyFloatMath env.fops op (h.fieldAt sIdx).asFloat od
            else applyIntMath op (h.fieldAt sIdx).asI32 od) with
        | error e =>
          simp [hl, hc, hm, List.length_cons, spliceAt_cons, spliceAt_append]
        | ok p =>
          simp [hl, hc, hm, ih, List.length_cons, spliceAt_cons]
      · simp [hl, hc, ih, List.length_cons, spliceAt_cons]
    · simp [hl, ih, List.length_cons, spliceAt_cons]

theorem count_skip (env : Env) (te : Bool) (cols : List Column)
    (pre post : List Record) (r : Record) (hr : live env r = false) :
    count env ⟨te, cols, pre ++ r :: post⟩ = count env ⟨te, cols, pre ++ post⟩ := by
  cases te
  · simp [count]
  · simp [count, countLive_skip env r hr pre post]

theorem countWhere_skip (env : Env) (te : Bool) (cols : List Column)
    (pre post : List Record) (r : Record) (hr : live env r = false)
    (wc : Option (List Nat)) (wv : Option FieldValue) :
    countWhere env ⟨te, cols, pre ++ r :: post⟩ wc wv =
      countWhere env ⟨te, cols, pre ++ post⟩ wc wv := by
  cases te
  · simp [countWhere]
  · cases wc with
    | none => simp [countWhere]
    | some n =>
      cases wv with
      | none => simp [countWhere]
      | some v =>
        cases hf : findColumnIndex cols n with
        | none => simp [countWhere, hf]
        | some wIdx =>
          simp [countWhere, hf, hr, countWhereLoop_skip]
          rfl

theorem select_skip (env : Env) (te : Bool) (cols : List Column)
    (pre post : List Record) (r : Record) (hr : live env r = false)
    (c wc : Option (List Nat)) (wv : Option FieldValue) :
    select env ⟨te, cols, pre ++ r :: post⟩ c wc wv =
      select env ⟨te, cols, pre ++ post⟩ c wc wv := by
  cases te
  · simp [select]
  · cases c with
    | none => simp [select]
    | some cn =>
      cases wc with
      | none => simp [select]
      | some n =>
        cases wv with
        | none => simp [select]
        | some v =>
          cases hfc : findColumnIndex cols cn with
          | none => simp [select, hfc]
          | some cIdx =>
            cases hf : findColumnIndex cols n with
            | none => simp [select, hfc, hf]
            | some wIdx =>
              simp [select, hfc, hf, hr, selectLoop_skip]
              rfl

theorem selectAll_skip (env : Env) (te : Bool) (cols : List Column)
    (pre post : List Record) (r : Record) (hr : live env r = false)
    (wc : Option (List Nat)) (wv : Option FieldValue) :
    selectAll env ⟨te, cols, pre ++ r :: post⟩ wc wv =
      selectAll env ⟨te, cols, pre ++ post⟩ wc wv := by
  cases te
  · simp [selectAll]
  · cases wc with
    | none => simp [selectAll]
    | some n =>
      cases wv with
      | none => simp [selectAll]
      | some v =>
        cases hf : findColumnIndex cols n with
        | none => simp [selectAll, hf]
        | some wIdx =>
          simp [selectAll, hf, hr, selectRows_skip]
          rfl

theorem min_skip (env : Env) (te : Bool) (cols : List Column)
    (pre post : List Record) (r : Record) (hr : live env r = false)
    (col : Option (List Nat)) :
    min env ⟨te, cols, pre ++ r :: post⟩ col = min env ⟨te, cols, pre ++ post⟩ col := by
  cases te
  · simp [min]
  · cases col with
    | none => simp [min]
    | some cn =>
      cases hf : findColumnIndex cols cn with
      | none => simp [min, hf]
      | some cIdx =>
        simp [min, hf, typeAt, scanMinI_skip env cIdx r hr pre post,
          scanMinF_skip env cIdx r hr pre post]

theorem max_skip (env : Env) (te : Bool) (cols : List Column)
    (pre post : List Record) (r : Record) (hr : live env r = false)
    (col : Option (List Nat)) :
    max env ⟨te, cols, pre ++ r :: post⟩ col = max env ⟨te, cols, pre ++ post⟩ col := by
  cases te
  · simp [max]
  · cases col with
    | none => simp [max]
    | some cn =>
      cases hf : findColumnIndex cols cn with
      | none => simp [max, hf]
      | some cIdx =>
        simp [max, hf, typeAt, scanMaxI_skip env cIdx r hr pre post,
          scanMaxF_skip env cIdx r hr pre post]

theorem top_skip (env : Env) (te : Bool) (cols : List Column)
    (pre post : List Record) (r : Record) (hr : live env r = false) (n : Nat) :
    top env ⟨te, cols, pre ++ r :: post⟩ n = top env ⟨te, cols, pre ++ post⟩ n := by
  cases te
  · simp [top]
  · simp [top, countLive_skip env r hr pre post, topFill_skip env cols r hr pre post]

theorem update_skip (env : Env) (te : Bool) (cols : List Column)
    (pre post : List Record) (r : Record) (hr : live env r = false)
    (wc : Option (List Nat)) (wv : Option FieldValue) (sc : Option (List Nat))
    (sv : Option FieldValue) :
    (update env ⟨te, cols, pre ++ r :: post⟩ wc wv sc sv).1 =
      (update env ⟨te, cols, pre ++ post⟩ wc wv sc sv).1 ∧
    (update env ⟨te, cols, pre ++ r :: post⟩ wc wv sc sv).2.records =
      spliceAt pre.length r (update env ⟨te, cols, pre ++ post⟩ wc wv sc sv).2.records := by
  cases te
  · simp [update, spliceAt_append]
  · cases wc with
    | none => simp [update, spliceAt_append]
    | some n =>
      cases wv with
      | none => simp [update, spliceAt_append]
      | some v =>
        cases sc with
        | none => simp [update, spliceAt_append]
        | some m =>
          cases sv with
          | none => simp [update, spliceAt_append]
          | some v2 =>
            cases hw : findColumnIndex cols n with
            | none => simp [update, hw, spliceAt_append]
            | some wIdx =>
              cases hs : findColumnIndex cols m with
              | none => simp [update, hw, hs, spliceAt_append]
              | some sIdx =>
                have hspl := updateScan_splice env wIdx sIdx
                  (cols.getD wIdx ⟨[], .int32⟩).type (cols.getD sIdx ⟨[], .int32⟩).type
                  v v2 r hr pre post
                simp only [update, typeAt] at hspl ⊢
                rw [hw, hs]
                simp only [hspl]
                cases hres : (updateScan env wIdx sIdx (cols.getD wIdx ⟨[], .int32⟩).type
                    (cols.getD sIdx ⟨[], .int32⟩).type v v2 (pre ++ post)).2.2 with
                | none => simp [hres]
                | some e => simp [hres]

theorem updateWithMath_skip (env : Env) (te : Bool) (cols : List Column)
    (pre post : List Record) (r : Record) (hr : live env r = false)
    (wc : Option (List Nat)) (wv : Option FieldValue) (sc : Option (List Nat))
    (op : IMDBMathOp) (od : Int) :
    (updateWithMath env ⟨te, cols, pre ++ r :: post⟩ wc wv sc op od).1 =
      (updateWithMath env ⟨te, cols, pre ++ post⟩ wc wv sc op od).1 ∧
    (updateWithMath env ⟨te, cols, pre ++ r :: post⟩ wc wv sc op od).2.records =
      spliceAt pre.length r (updateWithMath env ⟨te, cols, pre ++ post⟩ wc wv sc op od).2.records := by
  cases te
  · simp [updateWithMath, spliceAt_append]
  · cases wc with
    | none => simp [updateWithMath, spliceAt_append]
    | some n =>
      cases wv with
      | none => simp [updateWithMath, spliceAt_append]
      | some v =>
        cases sc with
        | none => simp [updateWithMath, spliceAt_append]
        | some m =>
          cases hw : findColumnIndex cols n with
          | none => simp [updateWithMath, hw, spliceAt_append]
          | some wIdx =>
            cases hs : findColumnIndex cols m with
            | none => simp [updateWithMath, hw, hs, spliceAt_append]
            | some sIdx =>
              by_cases hty : (typeAt (⟨true, cols, pre ++ r :: post⟩ : Store) sIdx ≠ .int32 ∧
                  typeAt (⟨true, cols, pre ++ r :: post⟩ : Store) sIdx ≠ .epoch ∧
                  typeAt (⟨true, cols, pre ++ r :: post⟩ : Store) sIdx ≠ .float)
              · have hty' : (typeAt (⟨true, cols, pre ++ post⟩ : Store) sIdx ≠ .int32 ∧
                    typeAt (⟨true, cols, pre ++ post⟩ : Store) sIdx ≠ .epoch ∧
                    typeAt (⟨true, cols, pre ++ post⟩ : Store) sIdx ≠ .float) := hty
                simp [updateWithMath, hw, hs, hty, hty', spliceAt_append]
              · have hty' : ¬(typeAt (⟨true, cols, pre ++ post⟩ : Store) sIdx ≠ .int32 ∧
                    typeAt (⟨true, cols, pre ++ post⟩ : Store) sIdx ≠ .epoch ∧
                    typeAt (⟨true, cols, pre ++ post⟩ : Store) sIdx ≠ .float) := hty
                have hspl : mathScan env wIdx sIdx
                    (typeAt (⟨true, cols, pre ++ r :: post⟩ : Store) wIdx)
                    (typeAt (⟨true, cols, pre ++ r :: post⟩ : Store) sIdx)
                    v op od (pre ++ r :: post) =
                    (spliceAt pre.length r ((mathScan env wIdx sIdx
                      (typeAt (⟨true, cols, pre ++ post⟩ : Store) wIdx)
                      (typeAt (⟨true, cols, pre ++ post⟩ : Store) sIdx)
                      v op od (pre ++ post)).1),
                     (mathScan env wIdx sIdx
                      (typeAt (⟨true, cols, pre ++ post⟩ : Store) wIdx)
                      (typeAt (⟨true, cols, pre ++ post⟩ : Store) sIdx)
                      v op od (pre ++ post)).2) :=
                  mathScan_splice env wIdx sIdx _ _ v op od r hr pre post
                simp only [updateWithMath]
                rw [hw, hs]
                simp only [if_neg (by decide : ¬(true = false))]
                rw [if_neg hty, if_neg hty']
                rw [hspl]
                cases hres : (mathScan env wIdx sIdx
                    (typeAt (⟨true, cols, pre ++ post⟩ : Store) wIdx)
                    (typeAt (⟨true, cols, pre ++ post⟩ : Store) sIdx)
                    v op od (pre ++ post)).2.2 with
                | none => simp [hres]
                | some e => simp [hres]


/-- C1 (amended): for every store state, a record that is still valid but
expired is treated as absent by `update`, `updateWithMath`, `select`,
`selectAll`, `count`, `countWhere`, `min`, `max` and `top`: each query
returns exactly what it returns on the store without that record, and the
two update operations return the same result code and the same records
except that the expired record sits unchanged at its position.
(`deleteRecords` is excluded: its scan checks only validity, so it does
match and delete expired-but-unpurged records — see the counterexample.) -/
theorem c1_expired_skipped (env : Env) (te : Bool) (cols : List Column)
    (pre post : List Record) (r : Record)
    (hval : r.isValid = true)
    (hexp : isRecordExpired env.now r.expiryMillis = true)
    (c wc sc col : Option (List Nat)) (wv sv : Option FieldValue)
    (n : Nat) (op : IMDBMathOp) (od : Int) :
    count env ⟨te, cols, pre ++ r :: post⟩ = count env ⟨te, cols, pre ++ post⟩ ∧
    countWhere env ⟨te, cols, pre ++ r :: post⟩ wc wv
      = countWhere env ⟨te, cols, pre ++ post⟩ wc wv ∧
    select env ⟨te, cols, pre ++ r :: post⟩ c wc wv
      = select env ⟨te, cols, pre ++ post⟩ c wc wv ∧
    selectAll env ⟨te, cols, pre ++ r :: post⟩ wc wv
      = selectAll env ⟨te, cols, pre ++ post⟩ wc wv ∧
    min env ⟨te, cols, pre ++ r :: post⟩ col = min env ⟨te, cols, pre ++ post⟩ col ∧
    max env ⟨te, cols, pre ++ r :: post⟩ col = max env ⟨te, cols, pre ++ post⟩ col ∧
    top env ⟨te, cols, pre ++ r :: post⟩ n = top env ⟨te, cols, pre ++ post⟩ n ∧
    ((update env ⟨te, cols, pre ++ r :: post⟩ wc wv sc sv).1
        = (update env ⟨te, cols, pre ++ post⟩ wc wv sc sv).1 ∧
      (update env ⟨te, cols, pre ++ r :: post⟩ wc wv sc sv).2.records
        = spliceAt pre.length r (update env ⟨te, cols, pre ++ post⟩ wc wv sc sv).2.records) ∧
    ((updateWithMath env ⟨te, cols, pre ++ r :: post⟩ wc wv sc op od).1
        = (updateWithMath env ⟨te, cols, pre ++ post⟩ wc wv sc op od).1 ∧
      (updateWithMath env ⟨te, cols, pre ++ r :: post⟩ wc wv sc op od).2.records
        = spliceAt pre.length r
            (updateWithMath env ⟨te, cols, pre ++ post⟩ wc wv sc op od).2.records) := by
  have hr : live env r = false := by simp [live, hval, hexp]
  exact ⟨count_skip env te cols pre post r hr,
    countWhere_skip env te cols pre post r hr wc wv,
    select_skip env te cols pre post r hr c wc wv,
    selectAll_skip env te cols pre post r hr wc wv,
    min_skip env te cols pre post r hr col,
    max_skip env te cols pre post r hr col,
    top_skip env te cols pre post r hr n,
    update_skip env te cols pre post r hr wc wv sc sv,
    updateWithMath_skip env te cols pre post r hr wc wv sc op od⟩

theorem c1_expired_skipped_witness :
    recExpired.isValid = true ∧
    isRecordExpired env0.now recExpired.expiryMillis = true ∧
    (count env0 ⟨true, [colA], [recLive] ++ recExpired :: []⟩
        = count env0 ⟨true, [colA], [recLive] ++ []⟩ ∧
      select env0 ⟨true, [colA], [recLive] ++ recExpired :: []⟩
          (some [97]) (some [97]) (some (.i32 5))
        = select env0 ⟨true, [colA], [recLive] ++ []⟩
          (some [97]) (some [97]) (some (.i32 5))) := by
  have h := c1_expired_skipped env0 true [colA] [recLive] [] recExpired
    (by decide) (by decide) (some [97]) (some [97]) (some [97]) (some [97])
    (some (.i32 5)) (some (.i32 5)) 1 .add 0
  exact ⟨by decide, by decide, h.1, h.2.2.1⟩

/-- C1 counterexample: `deleteRecords` does not treat an expired-but-valid
record as absent — on a store whose only record is valid but past its
expiry, a matching delete finds it, removes it and returns OK, where the
claim requires it to be skipped (NO_RECORDS, store unchanged). -/
theorem c1_counterexample :
    recExpired.isValid = true ∧
    isRecordExpired env0.now recExpired.expiryMillis = true ∧
    deleteRecords env0 storeExpired (some [97]) (some (.i32 5))
      = (.ok, ⟨true, [colA], []⟩) := by
  refine ⟨by decide, by decide, by decide⟩

theorem countLive_eq_filter (env : Env) (l : List Record) :
    countLive env l = (l.filter (live env)).length := by
  induction l with
  | nil => rfl
  | cons r rest ih =>
    by_cases hl : live env r <;> simp [countLive, hl, ih] <;> omega

theorem topFill_eq (env : Env) (cols : List Column) :
    ∀ (n : Nat) (l : List Record),
      topFill env cols n l = ((l.filter (live env)).take n).map (rowOf cols) := by
  intro n l
  induction l generalizing n with
  | nil => simp [topFill]
  | cons r rest ih =>
    cases n with
    | zero => simp [topFill_zero]
    | succ m =>
      by_cases hl : live env r <;> simp [topFill, hl, ih]

theorem rowOfAux_length (cols : List Column) :
    ∀ fs, (rowOfAux cols fs).length = cols.length := by
  induction cols with
  | nil => intro fs; rfl
  | cons c cs ih => intro fs; simp [rowOfAux, ih]

/-- C8: when the table exists, `n ≥ 1`, and some live, non-expired record
exists, `top(n)` returns OK with exactly the first `min n liveCount` live
records in store (insertion) order — the prefix of the live-filtered
sequence, mapped to full rows — with every row holding all columns.  No
ordering by value takes place: the output is a prefix of the stored order. -/
theorem c8_top (env : Env) (s : Store) (n : Nat) (hn : 1 ≤ n)
    (ht : s.tableExists = true) (hl : 0 < countLive env s.records) :
    top env s n
      = (.ok, some (((s.records.filter (live env)).take n).map (rowOf s.columns))) ∧
    ∀ rows, (top env s n).2 = some rows →
      rows.length = Nat.min n (countLive env s.records) ∧
      ∀ row ∈ rows, row.length = s.columns.length := by
  obtain ⟨te, cols, recs⟩ := s
  have hte : te = true := ht
  subst hte
  have hflen : (recs.filter (live env)).length = countLive env recs :=
    (countLive_eq_filter env recs).symm
  have hl' : 0 < countLive env recs := hl
  have hvc : ¬(countLive env recs = 0) := by omega
  have htake : (recs.filter (live env)).take
        (if n < countLive env recs then n else countLive env recs)
      = (recs.filter (live env)).take n := by
    by_cases hlt : n < countLive env recs
    · rw [if_pos hlt]
    · rw [if_neg hlt]
      rw [← hflen, List.take_length _]
      exact (List.take_of_length_le (by omega)).symm
  have hmain : top env ⟨true, cols, recs⟩ n
      = (.ok, some (((recs.filter (live env)).take n).map (rowOf cols))) := by
    simp only [top]
    rw [if_neg (by simp)]
    rw [if_neg hvc]
    rw [topFill_eq, htake]
  refine ⟨hmain, ?_⟩
  intro rows hrows
  rw [hmain] at hrows
  simp only [Option.some.injEq] at hrows
  subst hrows
  constructor
  · rw [List.length_map, List.length_take, hflen]
  · intro row hrow
    rw [List.mem_map] at hrow
    obtain ⟨r', hr', hrow⟩ := hrow
    subst hrow
    exact rowOfAux_length cols r'.fields

theorem c8_top_witness :
    top env0 storeLive 5
      = (.ok, some (((storeLive.records.filter (live env0)).take 5).map
          (rowOf storeLive.columns))) :=
  (c8_top env0 storeLive 5 (by decide) (by decide) (by decide)).1

theorem liveVals_cons (env : Env) (cIdx : Nat) (r : Record) (rest : List Record) :
    liveVals env cIdx (r :: rest) =
      if live env r then toInt32 (r.fieldAt cIdx).asI32 :: liveVals env cIdx rest
      else liveVals env cIdx rest := by
  by_cases hl : live env r <;> simp [liveVals, hl]

theorem scanMinI_true_char (env : Env) (cIdx : Nat) :
    ∀ (l : List Record) (acc : Int),
      (scanMinI env cIdx l true acc).1 = true ∧
      ((scanMinI env cIdx l true acc).2 = acc ∨
        (scanMinI env cIdx l true acc).2 ∈ liveVals env cIdx l) ∧
      (scanMinI env cIdx l true acc).2 ≤ acc ∧
      ∀ v ∈ liveVals env cIdx l, (scanMinI env cIdx l true acc).2 ≤ v := by
  intro l
  induction l with
  | nil => intro acc; simp [scanMinI, liveVals]
  | cons r rest ih =>
    intro acc
    by_cases hl : live env r
    · by_cases hc : toInt32 (r.fieldAt cIdx).asI32 < acc
      · have hstep : scanMinI env cIdx (r :: rest) true acc
            = scanMinI env cIdx rest true (toInt32 (r.fieldAt cIdx).asI32) := by
          simp [scanMinI, hl, hc]
        obtain ⟨h1, h2, h3, h4⟩ := ih (toInt32 (r.fieldAt cIdx).asI32)
        rw [hstep, liveVals_cons, if_pos hl]
        refine ⟨h1, ?_, by omega, ?_⟩
        · rcases h2 with h2 | h2
          · rw [h2]
            exact Or.inr (List.mem_cons_self _ _)
          · exact Or.inr (List.mem_cons_of_mem _ h2)
        · intro w hw
          rcases List.mem_cons.mp hw with hw | hw
          · subst hw
            omega
          · exact h4 w hw
      · have hstep : scanMinI env cIdx (r :: rest) true acc
            = scanMinI env cIdx rest true acc := by
          simp [scanMinI, hl, hc]
        obtain ⟨h1, h2, h3, h4⟩ := ih acc
        rw [hstep, liveVals_cons, if_pos hl]
        refine ⟨h1, ?_, h3, ?_⟩
        · rcases h2 with h2 | h2
          · exact Or.inl h2
          · exact Or.inr (List.mem_cons_of_mem _ h2)
        · intro w hw
          rcases List.mem_cons.mp hw with hw | hw
          · subst hw
            omega
          · exact h4 w hw
    · have hstep : scanMinI env cIdx (r :: rest) true acc
          = scanMinI env cIdx rest true acc := by
        simp [scanMinI, hl]
      rw [hstep, liveVals_cons, if_neg hl]
      exact ih acc

theorem scanMinI_false_char (env : Env) (cIdx : Nat) :
    ∀ (l : List Record) (acc : Int),
      (liveVals env cIdx l ≠ [] →
        (scanMinI env cIdx l false acc).1 = true ∧
        (scanMinI env cIdx l false acc).2 ∈ liveVals env cIdx l ∧
        ∀ v ∈ liveVals env cIdx l, (scanMinI env cIdx l false acc).2 ≤ v) := by
  intro l
  induction l with
  | nil => intro acc h; simp [liveVals] at h
  | cons r rest ih =>
    intro acc hne
    by_cases hl : live env r
    · have hstep : scanMinI env cIdx (r :: rest) false acc
          = scanMinI env cIdx rest true (toInt32 (r.fieldAt cIdx).asI32) := by
        simp [scanMinI, hl]
      obtain ⟨h1, h2, h3, h4⟩ := scanMinI_true_char env cIdx rest (toInt32 (r.fieldAt cIdx).asI32)
      rw [hstep, liveVals_cons, if_pos hl]
      refine ⟨h1, ?_, ?_⟩
      · rcases h2 with h2 | h2
        · rw [h2]
          exact List.mem_cons_self _ _
        · exact List.mem_cons_of_mem _ h2
      · intro w hw
        rcases List.mem_cons.mp hw with hw | hw
        · subst hw
          omega
        · exact h4 w hw
    · have hstep : scanMinI env cIdx (r :: rest) false acc
          = scanMinI env cIdx rest false acc := by
        simp [scanMinI, hl]
      have hne' : liveVals env cIdx rest ≠ [] := by
        rw [liveVals_cons, if_neg hl] at hne
        exact hne
      rw [hstep, liveVals_cons, if_neg hl]
      exact ih acc hne'

theorem scanMaxI_true_char (env : Env) (cIdx : Nat) :
    ∀ (l : List Record) (acc : Int),
      (scanMaxI env cIdx l true acc).1 = true ∧
      ((scanMaxI env cIdx l true acc).2 = acc ∨
        (scanMaxI env cIdx l true acc).2 ∈ liveVals env cIdx l) ∧
      acc ≤ (scanMaxI env cIdx l true acc).2 ∧
      ∀ v ∈ liveVals env cIdx l, v ≤ (scanMaxI env cIdx l true acc).2 := by
  intro l
  induction l with
  | nil => intro acc; simp [scanMaxI, liveVals]
  | cons r rest ih =>
    intro acc
    by_cases hl : live env r
    · by_cases hc : acc < toInt32 (r.fieldAt cIdx).asI32
      · have hstep : scanMaxI env cIdx (r :: rest) true acc
            = scanMaxI env cIdx rest true (toInt32 (r.fieldAt cIdx).asI32) := by
          simp [scanMaxI, hl, hc]
        obtain ⟨h1, h2, h3, h4⟩ := ih (toInt32 (r.fieldAt cIdx).asI32)
        rw [hstep, liveVals_cons, if_pos hl]
        refine ⟨h1, ?_, by omega, ?_⟩
        · rcases h2 with h2 | h2
          · rw [h2]
            exact Or.inr (List.mem_cons_self _ _)
          · exact Or.inr (List.mem_cons_of_mem _ h2)
        · intro w hw
          rcases List.mem_cons.mp hw with hw | hw
          · subst hw
            omega
          · exact h4 w hw
      · have hstep : scanMaxI env cIdx (r :: rest) true acc
            = scanMaxI env cIdx rest true acc := by
          simp [scanMaxI, hl, hc]
        obtain ⟨h1, h2, h3, h4⟩ := ih acc
        rw [hstep, liveVals_cons, if_pos hl]
        refine ⟨h1, ?_, h3, ?_⟩
        · rcases h2 with h2 | h2
          · exact Or.inl h2
          · exact Or.inr (List.mem_cons_of_mem _ h2)
        · intro w hw
          rcases List.mem_cons.mp hw with hw | hw
          · subst hw
            omega
          · exact h4 w hw
    · have hstep : scanMaxI env cIdx (r :: rest) true acc
          = scanMaxI env cIdx rest true acc := by
        simp [scanMaxI, hl]
      rw [hstep, liveVals_cons, if_neg hl]
      exact ih acc

theorem scanMaxI_false_char (env : Env) (cIdx : Nat) :
    ∀ (l : List Record) (acc : Int),
      (liveVals env cIdx l ≠ [] →
        (scanMaxI env cIdx l false acc).1 = true ∧
        (scanMaxI env cIdx l false acc).2 ∈ liveVals env cIdx l ∧
        ∀ v ∈ liveVals env cIdx l, v ≤ (scanMaxI env cIdx l false acc).2) := by
  intro l
  induction l with
  | nil => intro acc h; simp [liveVals] at h
  | cons r rest ih =>
    intro acc hne
    by_cases hl : live env r
    · have hstep : scanMaxI env cIdx (r :: rest) false acc
          = scanMaxI env cIdx rest true (toInt32 (r.fieldAt cIdx).asI32) := by
        simp [scanMaxI, hl]
      obtain ⟨h1, h2, h3, h4⟩ := scanMaxI_true_char env cIdx rest (toInt32 (r.fieldAt cIdx).asI32)
      rw [hstep, liveVals_cons, if_pos hl]
      refine ⟨h1, ?_, ?_⟩
      · rcases h2 with h2 | h2
        · rw [h2]
          exact List.mem_cons_self _ _
        · exact List.mem_cons_of_mem _ h2
      · intro w hw
        rcases List.mem_cons.mp hw with hw | hw
        · subst hw
          omega
        · exact h4 w hw
    · have hstep : scanMaxI env cIdx (r :: rest) false acc
          = scanMaxI env cIdx rest false acc := by
        simp [scanMaxI, hl]
      have hne' : liveVals env cIdx rest ≠ [] := by
        rw [liveVals_cons, if_neg hl] at hne
        exact hne
      rw [hstep, liveVals_cons, if_neg hl]
      exact ih acc hne'

/-- C9: on an `EPOCH` column, `min` and `max` read each stored 32-bit value
through an `int32_t` view and compare signed, returning the extremum cast
back to `uint32_t`: the result is the signed minimum (resp. maximum) of the
live values.  In particular, on a store holding the epoch values 1 and
`2^31`, `min` returns `2^31` (signed `-2^31`) and `max` returns 1 — not the
unsigned ordering. -/
theorem c9_epoch_signed (env : Env) (s : Store) (cn : List Nat) (cIdx : Nat)
    (ht : s.tableExists = true)
    (hf : findColumnIndex s.columns cn = some cIdx)
    (hty : typeAt s cIdx = .epoch)
    (hne : liveVals env cIdx s.records ≠ []) :
    (∃ m : Int, min env s (some cn) = (.ok, some ⟨.epoch, .epoch (pat32 m)⟩) ∧
      m ∈ liveVals env cIdx s.records ∧
      ∀ v ∈ liveVals env cIdx s.records, m ≤ v) ∧
    (∃ m : Int, max env s (some cn) = (.ok, some ⟨.epoch, .epoch (pat32 m)⟩) ∧
      m ∈ liveVals env cIdx s.records ∧
      ∀ v ∈ liveVals env cIdx s.records, v ≤ m) ∧
    min env0 storeEpoch (some [101]) = (.ok, some ⟨.epoch, .epoch 2147483648⟩) ∧
    max env0 storeEpoch (some [101]) = (.ok, some ⟨.epoch, .epoch 1⟩) := by
  obtain ⟨te, cols, recs⟩ := s
  have hte : te = true := ht
  subst hte
  have hty' : typeAt (⟨true, cols, recs⟩ : Store) cIdx = DType.epoch := hty
  refine ⟨?_, ?_, by decide, by decide⟩
  · rcases hsc : scanMinI env cIdx recs false 2147483647 with ⟨b, m⟩
    obtain ⟨h1, h2, h3⟩ := scanMinI_false_char env cIdx recs 2147483647 hne
    rw [hsc] at h1 h2 h3
    dsimp only at h1 h2 h3
    subst h1
    refine ⟨m, ?_, h2, h3⟩
    simp [min, hf, hty', hsc, extremeResult]
  · rcases hsc : scanMaxI env cIdx recs false (-2147483648) with ⟨b, m⟩
    obtain ⟨h1, h2, h3⟩ := scanMaxI_false_char env cIdx recs (-2147483648) hne
    rw [hsc] at h1 h2 h3
    dsimp only at h1 h2 h3
    subst h1
    refine ⟨m, ?_, h2, h3⟩
    simp [max, hf, hty', hsc, extremeResult]

theorem c9_epoch_signed_witness :
    min env0 storeEpoch (some [101]) = (.ok, some ⟨.epoch, .epoch 2147483648⟩) ∧
    max env0 storeEpoch (some [101]) = (.ok, some ⟨.epoch, .epoch 1⟩) :=
  (c9_epoch_signed env0 storeEpoch [101] 0 (by decide) (by decide) (by decide)
    (by decide)).2.2

theorem readN_append (l rest : List Nat) : readN l.length (l ++ rest) = some (l, rest) := by
  induction l with
  | nil => rfl
  | cons b bs ih => simp [readN, ih]

theorem readU32_enc32 (v : Nat) (hv : v < 4294967296) (rest : List Nat) :
    readU32 (enc32 v ++ rest) = some (v, rest) := by
  have h4 : readN 4 (enc32 v ++ rest) = some (enc32 v, rest) := readN_append (enc32 v) rest
  simp only [readU32, enc32] at h4 ⊢
  rw [h4]
  simp only [Option.some.injEq, Prod.mk.injEq]
  exact ⟨by omega, trivial⟩

theorem readU16_enc16 (v : Nat) (hv : v < 65536) (rest : List Nat) :
    readU16 (enc16 v ++ rest) = some (v, rest) := by
  simp only [enc16, readU16, readByte, List.cons_append, List.nil_append]
  simp only [Option.some.injEq, Prod.mk.injEq]
  exact ⟨by omega, trivial⟩

theorem decodeType_encodeType (t : DType) : decodeType (encodeTypeByte t) = t := by
  cases t <;> rfl

theorem readSchema_ser (cols : List Column) :
    ∀ rest : List Nat, (∀ c ∈ cols, wfColumn c = true) →
      readSchema cols.length (serSchema cols ++ rest) = some (cols, rest) := by
  induction cols with
  | nil => intro rest _; rfl
  | cons c cs ih =>
    intro rest hwf
    have hc := hwf c (List.mem_cons_self c cs)
    have hlen : c.name.length = 32 := by
      simp [wfColumn] at hc
      exact hc.1
    have hname : readN 32 (c.name ++ ([encodeTypeByte c.type] ++ (serSchema cs ++ rest)))
        = some (c.name, [encodeTypeByte c.type] ++ (serSchema cs ++ rest)) := by
      rw [← hlen]
      exact readN_append c.name _
    simp only [serSchema, serColumn, List.length_cons, readSchema, List.append_assoc]
    rw [hname]
    simp only [readByte, List.cons_append, List.nil_append]
    rw [ih rest fun x hx => hwf x (List.mem_cons_of_mem _ hx)]
    simp [decodeType_encodeType]

theorem readField_ser (t : DType) (f : FieldValue) (rest : List Nat)
    (hwf : wfField t f = true) :
    readField t (serField t f ++ rest) = some (canonField t f, rest) := by
  cases t with
  | int32 =>
    cases f <;> simp [wfField] at hwf
    rename_i p
    simp only [serField, readField, FieldValue.asI32]
    rw [readU32_enc32 p hwf]
    rfl
  | epoch =>
    cases f <;> simp [wfField] at hwf
    rename_i p
    simp only [serField, readField, FieldValue.asEpoch]
    rw [readU32_enc32 p hwf]
    rfl
  | float =>
    cases f <;> simp [wfField] at hwf
    rename_i p
    simp only [serField, readField, FieldValue.asFloat]
    rw [readU32_enc32 p hwf]
    rfl
  | mac =>
    cases f <;> simp [wfField] at hwf
    rename_i bs
    have hlen : bs.length = 6 := hwf.1
    simp only [serField, readField, FieldValue.asMac]
    rw [← hlen, readN_append]
    rfl
  | bool =>
    cases f <;> simp [wfField] at hwf
    rename_i b
    cases b <;> simp [serField, readField, readByte, canonField, FieldValue.asBool]
  | str =>
    cases f with
    | i32 p => simp [wfField] at hwf
    | mac bs => simp [wfField] at hwf
    | epoch p => simp [wfField] at hwf
    | bool b => simp [wfField] at hwf
    | float p => simp [wfField] at hwf
    | str os =>
      cases os with
      | none => simp [serField, readField, readByte, canonField, FieldValue.asStr]
      | some s =>
        simp [wfField] at hwf
        have hlen : s.length ≤ 255 := hwf.1
        have hser : serField DType.str (FieldValue.str (some s)) = s.length :: s := by
          simp [serField, FieldValue.asStr, Nat.min_eq_left hlen,
            List.take_of_length_le hlen]
        rw [hser]
        cases s with
        | nil => simp [readField, readByte, canonField]
        | cons b bs =>
          simp only [readField, readByte, List.cons_append]
          rw [if_neg (by simp only [List.length_cons] at hlen ⊢; omega), if_neg (by simp)]
          have h := readN_append (b :: bs) rest
          simp only [List.cons_append] at h
          rw [h]
          rfl

theorem readFields_ser (cols : List Column) :
    ∀ (fs : List FieldValue) (rest : List Nat), wfFields cols fs = true →
      readFields cols (serFields cols fs ++ rest) = some (canonFields cols fs, rest) := by
  induction cols with
  | nil => intro fs rest _; rfl
  | cons c cs ih =>
    intro fs rest hwf
    cases fs with
    | nil => simp [wfFields] at hwf
    | cons f ftl =>
      rw [wfFields, Bool.and_eq_true] at hwf
      obtain ⟨h1, h2⟩ := hwf
      simp only [serFields, List.headD, List.tail_cons, canonFields, readFields,
        List.append_assoc]
      rw [readField_ser c.type f _ h1]
      simp [ih ftl rest h2]

theorem readRecords_ser (cols : List Column) (sm now : Nat) (recs : List Record) :
    ∀ rest : List Nat,
      (∀ r ∈ recs, wfRecord cols r = true) →
      readRecords true cols sm now recs.length (serRecords cols recs ++ rest)
        = .ok (recs.map (loadRec cols sm now), rest) := by
  induction recs with
  | nil => intro rest _; rfl
  | cons r rs ih =>
    intro rest hwf
    have hr := hwf r (List.mem_cons_self r rs)
    rw [wfRecord, Bool.and_eq_true] at hr
    obtain ⟨hfields, hexp⟩ := hr
    have hexp' : r.expiryMillis < 4294967296 := by simpa using hexp
    simp only [serRecords, serRecord, List.length_cons, readRecords, List.cons_append,
      List.append_assoc, readByte]
    rw [readU32_enc32 r.expiryMillis hexp']
    simp only [Bool.true_eq_false, if_false]
    rw [readFields_ser cols r.fields _ hfields]
    simp only []
    rw [ih rest fun x hx => hwf x (List.mem_cons_of_mem _ hx)]
    simp only [List.map_cons, loadRec]
    cases hv : r.isValid <;> simp [hv]

theorem readHeader_ser (cc rc sm : Nat) (tail : List Nat)
    (hrc : rc < 65536) (hsm : sm < 4294967296) :
    readHeader ([73, 77, 68, 66] ++ [1] ++ [cc] ++ enc16 rc ++ enc32 sm ++ tail)
      = some (cc, rc, sm, tail) := by
  have h16 := readU16_enc16 rc hrc (enc32 sm ++ tail)
  have h32 := readU32_enc32 sm hsm tail
  simp only [enc16, enc32, List.cons_append, List.nil_append, List.append_assoc] at h16 h32 ⊢
  simp only [readHeader, readN, readByte]
  simp only [h16, h32]
  simp

theorem markExpired_id (env : Env) (l : List Record)
    (h : ∀ r ∈ l, r.isValid = true ∧ isRecordExpired env.now r.expiryMillis = false) :
    markExpired env l = l := by
  induction l with
  | nil => rfl
  | cons r rest ih =>
    have hr := h r (List.mem_cons_self r rest)
    simp [markExpired, hr.1, hr.2, ih fun x hx => h x (List.mem_cons_of_mem _ hx)]

theorem countLive_all (env : Env) (l : List Record)
    (h : ∀ r ∈ l, live env r = true) :
    countLive env l = l.length := by
  induction l with
  | nil => rfl
  | cons r rest ih =>
    simp [countLive, h r (List.mem_cons_self r rest),
      ih fun x hx => h x (List.mem_cons_of_mem _ hx)]
    omega

theorem compactRecords_id (l : List Record) (h : ∀ r ∈ l, r.isValid = true) :
    compactRecords l = l := by
  rw [compactRecords_eq_filter]
  exact List.filter_eq_self.mpr fun x hx => by simpa using h x hx

theorem rebased_not_expired (e sm now2 : Nat) (he : e < 4294967296)
    (hsm : sm < 4294967296) (h2 : now2 < 4294967296) (hne : e ≠ 0)
    (hnexp : isRecordExpired sm e = false) :
    isRecordExpired now2 (add32 now2 (sub32 e sm)) = false := by
  unfold isRecordExpired at hnexp ⊢
  rw [if_neg hne] at hnexp
  by_cases hx : add32 now2 (sub32 e sm) = 0
  · rw [if_pos hx]
  · rw [if_neg hx]
    simp only [decide_eq_false_iff_not, not_le] at hnexp ⊢
    simp only [toInt32, sub32, add32] at hnexp hx ⊢
    split at hnexp <;> split <;> omega

theorem canonField_id (t : DType) (f : FieldValue) (hf : f ≠ .str (some [])) :
    canonField t f = f := by
  cases t <;> try rfl
  cases f <;> try rfl
  rename_i os
  cases os <;> try rfl
  rename_i s
  cases s with
  | nil => exact absurd rfl hf
  | cons b bs => rfl

theorem getFieldValue_canon (t : DType) (f : FieldValue) :
    getFieldValue (canonField t f) t = getFieldValue f t := by
  cases t <;> try rfl
  cases f <;> try rfl
  rename_i os
  cases os <;> try rfl
  rename_i s
  cases s <;> rfl

theorem rowOfAux_canon (cols : List Column) :
    ∀ fs, rowOfAux cols (canonFields cols fs) = rowOfAux cols fs := by
  induction cols with
  | nil => intro fs; rfl
  | cons c cs ih =>
    intro fs
    cases fs with
    | nil => rfl
    | cons f ftl =>
      simp only [canonFields, rowOfAux, List.headD, List.tail_cons]
      rw [getFieldValue_canon, ih ftl]

theorem wfFields_length (cols : List Column) :
    ∀ fs, wfFields cols fs = true → fs.length = cols.length := by
  induction cols with
  | nil =>
    intro fs h
    cases fs with
    | nil => rfl
    | cons f ftl => simp [wfFields] at h
  | cons c cs ih =>
    intro fs h
    cases fs with
    | nil => simp [wfFields] at h
    | cons f ftl =>
      rw [wfFields, Bool.and_eq_true] at h
      simp [ih ftl h.2]

theorem canonFields_id (cols : List Column) :
    ∀ fs, (∀ f ∈ fs, f ≠ FieldValue.str (some [])) →
      canonFields cols fs = fs.take cols.length := by
  induction cols with
  | nil => intro fs _; rfl
  | cons c cs ih =>
    intro fs h
    cases fs with
    | nil => rfl
    | cons f ftl =>
      simp only [canonFields, List.length_cons, List.take_succ_cons]
      rw [canonField_id c.type f (h f (List.mem_cons_self f ftl))]
      rw [ih ftl fun x hx => h x (List.mem_cons_of_mem _ hx)]

theorem loadFromFile_ser (env2 : Env) (cols : List Column) (recs : List Record) (sm : Nat)
    (hcolwf : ∀ c ∈ cols, wfColumn c = true)
    (hrecwf : ∀ r ∈ recs, wfRecord cols r = true)
    (hrlen : recs.length < 65536)
    (hsm : sm < 4294967296)
    (hp : checkHeapLimit env2 = true) :
    loadFromFile env2 emptyStore (serialize cols recs sm)
      = (.ok, ⟨true, cols, recs.map (loadRec cols sm env2.now)⟩) := by
  have hheader : readHeader (serialize cols recs sm)
      = some (cols.length, recs.length, sm, serSchema cols ++ serRecords cols recs) := by
    simp only [serialize]
    exact readHeader_ser cols.length recs.length sm _ hrlen hsm
  have hrr : readRecords true cols sm env2.now recs.length (serRecords cols recs)
      = .ok (recs.map (loadRec cols sm env2.now), []) := by
    have h := readRecords_ser cols sm env2.now recs [] hrecwf
    rwa [List.append_nil] at h
  simp only [loadFromFile, emptyStore]
  rw [hheader]
  simp only [hp, Bool.true_eq_false, if_false]
  rw [readSchema_ser cols (serRecords cols recs) hcolwf]
  simp only [hp]
  rw [hrr]
  simp

theorem saveToFile_ok (env : Env) (s : Store) (ht : s.tableExists = true)
    (hval : ∀ r ∈ s.records, r.isValid = true)
    (hnexp : ∀ r ∈ s.records, isRecordExpired env.now r.expiryMillis = false)
    (hcap : s.records.length ≤ 65535) :
    saveToFile env s = (.ok, s, some (serialize s.columns s.records env.now)) := by
  obtain ⟨te, cols, recs⟩ := s
  have hte : te = true := ht
  subst hte
  have hm : markExpired env recs = recs :=
    markExpired_id env recs fun r hr => ⟨hval r hr, hnexp r hr⟩
  have hcpt : compactRecords recs = recs := compactRecords_id recs hval
  have hcap' : ¬(65535 < recs.length) := by
    have : recs.length ≤ 65535 := hcap
    omega
  simp [saveToFile, hm, hcpt, hcap']

/-- C3 (amended): for every well-formed store reachable by successful
inserts (all records valid, none expired) holding at most 65535 records,
`saveToFile` succeeds writing the snapshot bytes, and `loadFromFile` of
those bytes into a fresh store succeeds and yields the same schema, the
same live record count, and for every record the same field values (an
allocated empty string reloads as the equivalent null string — the two are
byte-identical in content and observable value; every other field,
including MAC bytes, bool, int32, float bit patterns and string contents,
is reproduced bit-identically), with each zero expiry preserved as zero.
Beyond 65535 records `saveToFile` refuses with `INVALID_OPERATION` and
writes nothing (see the counterexample). -/
theorem c3_roundtrip (env env2 : Env) (s : Store)
    (hwf : wfStore s = true)
    (hval : ∀ r ∈ s.records, r.isValid = true)
    (hnexp : ∀ r ∈ s.records, isRecordExpired env.now r.expiryMillis = false)
    (hcap : s.records.length ≤ 65535)
    (hnow : env.now < 4294967296)
    (hnow2 : env2.now < 4294967296)
    (hp : checkHeapLimit env2 = true) :
    ∃ bytes, saveToFile env s = (.ok, s, some bytes) ∧
      ∃ loaded, loadFromFile env2 emptyStore bytes = (.ok, loaded) ∧
        loaded.columns = s.columns ∧
        loaded.records.length = s.records.length ∧
        count env2 loaded = count env s ∧
        List.Forall₂ (fun lr (r : Record) =>
          lr.isValid = true ∧
          lr.fields = canonFields s.columns r.fields ∧
          rowOf s.columns lr = rowOf s.columns r ∧
          ((∀ f ∈ r.fields, f ≠ FieldValue.str (some [])) → lr.fields = r.fields) ∧
          (r.expiryMillis = 0 → lr.expiryMillis = 0))
          loaded.records s.records := by
  have ht : s.tableExists = true := by
    rw [wfStore] at hwf
    simp only [Bool.and_eq_true] at hwf
    exact hwf.1.1.1.1
  have hcolwf : ∀ c ∈ s.columns, wfColumn c = true := by
    rw [wfStore] at hwf
    simp only [Bool.and_eq_true] at hwf
    exact fun c hc => by
      have := hwf.1.2
      rw [List.all_eq_true] at this
      exact this c hc
  have hrecwf : ∀ r ∈ s.records, wfRecord s.columns r = true := by
    rw [wfStore] at hwf
    simp only [Bool.and_eq_true] at hwf
    exact fun r hr => by
      have := hwf.2
      rw [List.all_eq_true] at this
      exact this r hr
  refine ⟨serialize s.columns s.records env.now,
    saveToFile_ok env s ht hval hnexp hcap, ?_⟩
  have hload := loadFromFile_ser env2 s.columns s.records env.now hcolwf hrecwf
    (by omega) hnow hp
  refine ⟨⟨true, s.columns, s.records.map (loadRec s.columns env.now env2.now)⟩,
    hload, rfl, by simp, ?_, ?_⟩
  · have hlive1 : ∀ r ∈ s.records, live env r = true := fun r hr => by
      simp [live, hval r hr, hnexp r hr]
    have hlive2 : ∀ lr ∈ s.records.map (loadRec s.columns env.now env2.now),
        live env2 lr = true := by
      intro lr hlr
      rw [List.mem_map] at hlr
      obtain ⟨r, hr, hlr⟩ := hlr
      subst hlr
      have hvr : (loadRec s.columns env.now env2.now r).isValid = true := by
        simp [loadRec, hval r hr]
      have hexpwf : r.expiryMillis < 4294967296 := by
        have := hrecwf r hr
        rw [wfRecord, Bool.and_eq_true] at this
        simpa using this.2
      by_cases h0 : r.expiryMillis = 0
      · simp [live, loadRec, hval r hr, h0, isRecordExpired]
      · have := rebased_not_expired r.expiryMillis env.now env2.now hexpwf hnow hnow2
          h0 (hnexp r hr)
        simp [live, loadRec, hval r hr, h0, this]
    rw [count, count, if_neg (by simp), if_neg (by rw [ht]; simp)]
    rw [countLive_all env2 _ hlive2, countLive_all env _ hlive1]
    simp
  · rw [List.forall₂_map_left_iff]
    rw [List.forall₂_same]
    intro r hr
    have hfwf : wfFields s.columns r.fields = true := by
      have := hrecwf r hr
      rw [wfRecord, Bool.and_eq_true] at this
      exact this.1
    refine ⟨by simp [loadRec, hval r hr], rfl, ?_, ?_, ?_⟩
    · simp only [rowOf, loadRec]
      exact rowOfAux_canon s.columns r.fields
    · intro hnes
      have hlen : r.fields.length = s.columns.length := wfFields_length s.columns r.fields hfwf
      simp only [loadRec]
      rw [canonFields_id s.columns r.fields hnes, ← hlen, List.take_length _]
    · intro h0
      simp [loadRec, h0]

theorem c3_roundtrip_witness :
    ∃ bytes, saveToFile env0 storeRT = (.ok, storeRT, some bytes) ∧
      ∃ loaded, loadFromFile envLoad emptyStore bytes = (.ok, loaded) ∧
        loaded.columns = storeRT.columns ∧
        loaded.records.length = storeRT.records.length ∧
        count envLoad loaded = count env0 storeRT ∧
        List.Forall₂ (fun lr (r : Record) =>
          lr.isValid = true ∧
          lr.fields = canonFields storeRT.columns r.fields ∧
          rowOf storeRT.columns lr = rowOf storeRT.columns r ∧
          ((∀ f ∈ r.fields, f ≠ FieldValue.str (some [])) → lr.fields = r.fields) ∧
          (r.expiryMillis = 0 → lr.expiryMillis = 0))
          loaded.records storeRT.records :=
  c3_roundtrip env0 envLoad storeRT (by decide) (by decide) (by decide) (by decide)
    (by decide) (by decide) (by decide)

theorem insert_baseA_step (s : Store) (h1 : s.tableExists = true)
    (h2 : s.columns = [colA]) :
    insert env0 s valsOne 0
      = (.ok, { s with records := s.records ++ [⟨[.i32 0], 0, true⟩] }) := by
  have hheap : checkHeapLimit env0 = true := by decide
  have hcf : copyFields s.columns [some (.i32 0)] = .ok [.i32 0] := by
    rw [h2]
    rfl
  simp [insert, h1, hheap, maxTTL, valsOne, hcf]

theorem iterInsert_props : ∀ n : Nat,
    (iterInsert env0 valsOne baseA n).tableExists = true ∧
    (iterInsert env0 valsOne baseA n).columns = [colA] ∧
    (iterInsert env0 valsOne baseA n).records.length = n ∧
    (∀ r ∈ (iterInsert env0 valsOne baseA n).records, r = ⟨[.i32 0], 0, true⟩) := by
  intro n
  induction n with
  | zero => exact ⟨rfl, rfl, rfl, by simp [iterInsert, baseA]⟩
  | succ m ih =>
    obtain ⟨h1, h2, h3, h4⟩ := ih
    have hstep := insert_baseA_step _ h1 h2
    refine ⟨?_, ?_, ?_, ?_⟩
    · simp [iterInsert, hstep, h1]
    · simp [iterInsert, hstep, h2]
    · simp [iterInsert, hstep, h3]
    · intro r hr
      simp only [iterInsert, hstep] at hr
      simp only [List.mem_append, List.mem_singleton] at hr
      rcases hr with hr | hr
      · exact h4 r hr
      · exact hr

/-- C3 counterexample: 65536 successful inserts (each one returns OK, and
one more still would) build a store with 65536 live records, but
`saveToFile` then fails with `INVALID_OPERATION` and writes no bytes, so no
save/load round trip exists for this insert sequence: the record count cap
of the 16-bit on-disk field falsifies the unrestricted claim. -/
theorem c3_counterexample :
    bigStore.records.length = 65536 ∧
    count env0 bigStore = 65536 ∧
    (insert env0 bigStore valsOne 0).1 = .ok ∧
    (saveToFile env0 bigStore).1 = .invalidOperation ∧
    (saveToFile env0 bigStore).2.2 = none := by
  obtain ⟨ha, hb, hc, hd⟩ := iterInsert_props 65536
  have h1 : bigStore.tableExists = true := ha
  have h2 : bigStore.columns = [colA] := hb
  have h3 : bigStore.records.length = 65536 := hc
  have h4 : ∀ r ∈ bigStore.records,
      r = (⟨[.i32 0], 0, true⟩ : Record) := hd
  have hall : ∀ r ∈ bigStore.records, r.isValid = true ∧
      isRecordExpired env0.now r.expiryMillis = false := by
    intro r hr
    rw [h4 r hr]
    exact ⟨rfl, rfl⟩
  have hlive : ∀ r ∈ bigStore.records, live env0 r = true := by
    intro r hr
    simp [live, (hall r hr).1, (hall r hr).2]
  have hm : markExpired env0 bigStore.records = bigStore.records :=
    markExpired_id env0 _ hall
  have hcpt : compactRecords bigStore.records = bigStore.records :=
    compactRecords_id _ fun r hr => (hall r hr).1
  have hlen : bigStore.records.length = 65536 := h3
  have hsave : (saveToFile env0 bigStore).1 = .invalidOperation ∧
      (saveToFile env0 bigStore).2.2 = none := by
    have hgt : 65535 < (compactRecords (markExpired env0 bigStore.records)).length := by
      rw [hm, hcpt, hlen]
      omega
    constructor <;> simp [saveToFile, h1, hgt]
  refine ⟨hlen, ?_, ?_, hsave.1, hsave.2⟩
  · rw [count, if_neg (by rw [h1]; simp)]
    rw [countLive_all env0 _ hlive, hlen]
  · rw [insert_baseA_step bigStore h1 h2]
